import Mathlib

/-!
# The pixel-buffer transforms of `transform.go`

A shallow embedding of `Rotate90`, `Rotate180`, `Rotate270`, `FlipH`, `FlipV`,
`Skew`, `aliasedAdd` and `aliasedAddPixel` (package `imaging`, file
`transform.go`) together with the facts the specification states about them.

Modelling conventions.

* A byte is a natural number; the rigid transforms only move bytes, they never
  compute with them, and the blend of `aliasedAddPixel` reduces its `uint8`
  arithmetic modulo 256.
* In the rigid transforms Go `int` values are natural numbers.  Every
  subtraction they perform (`dstH - dstY - 1`, `dstW - dstX - 1`) happens
  inside a loop whose guard makes the minuend strictly larger, so truncated
  subtraction agrees with the machine subtraction, and every offset is bounded
  by the length of an allocated byte slice, so no 64-bit overflow can occur.
  In `Skew`, whose offsets and destination sizes can be negative, they are
  integers, with the truncated division and remainder of Go.
* A slice expression `p[off:off+4]` panics when `off+4` exceeds the capacity of
  `p`, an index expression `p[i]` when `i` is out of range; the byte list of a
  buffer stands for the slice up to its capacity and a panic is the result
  `none`.
* The `float64` arithmetic of `Skew` is modelled by `F64`: exact results
  rounded to nearest, ties to even, at 53 binary digits.
-/

namespace Imaging

/-- The pixel buffer `image.NRGBA` whose bounds start at the origin, which is
what `toNRGBA` hands to every transform: `Pix` holds the bytes, `Stride` is the
distance in bytes between vertically adjacent pixels, `W` and `H` are
`Bounds().Max.X` and `Bounds().Max.Y`. -/
structure NRGBA where
  Pix : List Nat
  Stride : Nat
  W : Nat
  H : Nat
deriving DecidableEq, Repr

/-- The standard library constructor `image.NewNRGBA(image.Rect(0, 0, w, h))`:
a zeroed buffer of `4*w*h` bytes with stride `4*w`. -/
def NewNRGBA (w h : Nat) : NRGBA :=
  { Pix := List.replicate (4 * w * h) 0, Stride := 4 * w, W := w, H := h }

/-- Modelled from the spec: `toNRGBA`, the normalisation of the caller's image
into the internal pixel buffer layout, is not among the source files.  The
specification makes it the job of an external collaborator and hands the
transforms a buffer that is already in the layout of section 3, so on such a
buffer it returns its argument. -/
def toNRGBA (img : NRGBA) : NRGBA := img

/-- The Go loop `for i := lo; ...; i++` unrolled `n` times from `i`, threading
the state and stopping at the first panic. -/
def loopFrom {σ : Type} (body : Nat → σ → Option σ) : Nat → Nat → σ → Option σ
  | _, 0, s => some s
  | i, n + 1, s => (body i s).bind (loopFrom body (i + 1) n)

/-- The Go loop `for i := lo; i < hi; i++ { body }`. -/
def forLoop {σ : Type} (lo hi : Nat) (body : Nat → σ → Option σ) (s : σ) : Option σ :=
  loopFrom body lo (hi - lo) s

/-- Modelled from the spec: `parallel`, the work partitioner, is not among the
source files.  Section 6 says it invokes the body one or more times with
disjoint, contiguous sub-ranges covering `[0, n)` and returns when all are
done; this is the schedule with the single sub-range `[0, n)`. -/
def parallel {σ : Type} (n : Nat) (fn : Nat → Nat → σ → Option σ) (s : σ) : Option σ :=
  fn 0 n s

/-- The slice expression `p[off:off+4]`. -/
def slice4 (p : List Nat) (off : Nat) : List Nat := (p.drop off).take 4

/-- The statement `copy(dst.Pix[dstOff:dstOff+4], src.Pix[srcOff:srcOff+4])`:
both slice expressions are bounds checked, then four bytes are copied. -/
def copyPix (dst : NRGBA) (dstOff : Nat) (src : NRGBA) (srcOff : Nat) : Option NRGBA :=
  if dstOff + 4 ≤ dst.Pix.length ∧ srcOff + 4 ≤ src.Pix.length then
    some { dst with
      Pix := dst.Pix.take dstOff ++ slice4 src.Pix srcOff ++ dst.Pix.drop (dstOff + 4) }
  else none

/-- The function `Rotate90` of `transform.go`. -/
def Rotate90 (img : NRGBA) : Option NRGBA :=
  let src := toNRGBA img
  let srcW := src.W
  let srcH := src.H
  let dstW := srcH
  let dstH := srcW
  let dst := NewNRGBA dstW dstH
  parallel dstH (fun partStart partEnd dst =>
    forLoop partStart partEnd (fun dstY dst =>
      forLoop 0 dstW (fun dstX dst =>
        let srcX := dstH - dstY - 1
        let srcY := dstX
        let srcOff := srcY * src.Stride + srcX * 4
        let dstOff := dstY * dst.Stride + dstX * 4
        copyPix dst dstOff src srcOff) dst) dst) dst

/-- The function `Rotate180` of `transform.go`. -/
def Rotate180 (img : NRGBA) : Option NRGBA :=
  let src := toNRGBA img
  let srcW := src.W
  let srcH := src.H
  let dstW := srcW
  let dstH := srcH
  let dst := NewNRGBA dstW dstH
  parallel dstH (fun partStart partEnd dst =>
    forLoop partStart partEnd (fun dstY dst =>
      forLoop 0 dstW (fun dstX dst =>
        let srcX := dstW - dstX - 1
        let srcY := dstH - dstY - 1
        let srcOff := srcY * src.Stride + srcX * 4
        let dstOff := dstY * dst.Stride + dstX * 4
        copyPix dst dstOff src srcOff) dst) dst) dst

/-- The function `Rotate270` of `transform.go`. -/
def Rotate270 (img : NRGBA) : Option NRGBA :=
  let src := toNRGBA img
  let srcW := src.W
  let srcH := src.H
  let dstW := srcH
  let dstH := srcW
  let dst := NewNRGBA dstW dstH
  parallel dstH (fun partStart partEnd dst =>
    forLoop partStart partEnd (fun dstY dst =>
      forLoop 0 dstW (fun dstX dst =>
        let srcX := dstY
        let srcY := dstW - dstX - 1
        let srcOff := srcY * src.Stride + srcX * 4
        let dstOff := dstY * dst.Stride + dstX * 4
        copyPix dst dstOff src srcOff) dst) dst) dst

/-- The function `FlipH` of `transform.go`. -/
def FlipH (img : NRGBA) : Option NRGBA :=
  let src := toNRGBA img
  let srcW := src.W
  let srcH := src.H
  let dstW := srcW
  let dstH := srcH
  let dst := NewNRGBA dstW dstH
  parallel dstH (fun partStart partEnd dst =>
    forLoop partStart partEnd (fun dstY dst =>
      forLoop 0 dstW (fun dstX dst =>
        let srcX := dstW - dstX - 1
        let srcY := dstY
        let srcOff := srcY * src.Stride + srcX * 4
        let dstOff := dstY * dst.Stride + dstX * 4
        copyPix dst dstOff src srcOff) dst) dst) dst

/-- The function `FlipV` of `transform.go`. -/
def FlipV (img : NRGBA) : Option NRGBA :=
  let src := toNRGBA img
  let srcW := src.W
  let srcH := src.H
  let dstW := srcW
  let dstH := srcH
  let dst := NewNRGBA dstW dstH
  parallel dstH (fun partStart partEnd dst =>
    forLoop partStart partEnd (fun dstY dst =>
      forLoop 0 dstW (fun dstX dst =>
        let srcX := dstX
        let srcY := dstH - dstY - 1
        let srcOff := srcY * src.Stride + srcX * 4
        let dstOff := dstY * dst.Stride + dstX * 4
        copyPix dst dstOff src srcOff) dst) dst) dst

/-- The four bytes of the pixel at coordinate `(x, y)`: the slice of `Pix`
starting at byte offset `y*Stride + x*4`. -/
def pixelAt (img : NRGBA) (x y : Nat) : List Nat :=
  slice4 img.Pix (y * img.Stride + x * 4)

/-- The pixel buffer invariant of section 3 of the specification: the stride
holds a full row and the byte sequence holds `H` rows. -/
def WellFormed (img : NRGBA) : Prop :=
  4 * img.W ≤ img.Stride ∧ img.Stride * img.H ≤ img.Pix.length

/-- The multiset of the four-byte pixel values over the `W*H` pixel
coordinates of a buffer. -/
def pixelMultiset (img : NRGBA) : Multiset (List Nat) :=
  (Finset.range img.W ×ˢ Finset.range img.H).val.map (fun p => pixelAt img p.1 p.2)

/-- The source coordinate `(srcX, srcY)` the loop body of `Rotate90` computes
for the destination coordinate `(dstX, dstY)`. -/
def rotate90Src (_dstW dstH dstX dstY : Nat) : Nat × Nat := (dstH - dstY - 1, dstX)

/-- The source coordinate the loop body of `Rotate180` computes. -/
def rotate180Src (dstW dstH dstX dstY : Nat) : Nat × Nat := (dstW - dstX - 1, dstH - dstY - 1)

/-- The source coordinate the loop body of `Rotate270` computes. -/
def rotate270Src (dstW _dstH dstX dstY : Nat) : Nat × Nat := (dstY, dstW - dstX - 1)

/-- The source coordinate the loop body of `FlipH` computes. -/
def flipHSrc (dstW _dstH dstX dstY : Nat) : Nat × Nat := (dstW - dstX - 1, dstY)

/-- The source coordinate the loop body of `FlipV` computes. -/
def flipVSrc (_dstW dstH dstX dstY : Nat) : Nat × Nat := (dstX, dstH - dstY - 1)

/-- The common shape of the five rigid transforms: a fresh `dstW × dstH`
buffer filled row by row, each pixel copied from the source coordinate `f`
computes for it. -/
def rigid (f : Nat → Nat → Nat → Nat → Nat × Nat) (dstW dstH : Nat) (src : NRGBA) :
    Option NRGBA :=
  forLoop 0 dstH (fun dstY dst =>
    forLoop 0 dstW (fun dstX dst =>
      copyPix dst (dstY * dst.Stride + dstX * 4) src
        ((f dstW dstH dstX dstY).2 * src.Stride + (f dstW dstH dstX dstY).1 * 4)) dst)
    (NewNRGBA dstW dstH)

/-- The 2x3 source buffer shared by the tests of `transform_test.go`, in the
origin-based layout `toNRGBA` gives it. -/
def fixture : NRGBA :=
  { Pix := [0x00, 0x11, 0x22, 0x33, 0xcc, 0xdd, 0xee, 0xff,
            0xff, 0x00, 0x00, 0x00, 0x00, 0xff, 0x00, 0x00,
            0x00, 0x00, 0xff, 0x00, 0x00, 0x00, 0x00, 0xff],
    Stride := 2 * 4, W := 2, H := 3 }

/-- The golden buffer of `TestRotate90`. -/
def goldenRotate90 : NRGBA :=
  { Pix := [0xcc, 0xdd, 0xee, 0xff, 0x00, 0xff, 0x00, 0x00, 0x00, 0x00, 0x00, 0xff,
            0x00, 0x11, 0x22, 0x33, 0xff, 0x00, 0x00, 0x00, 0x00, 0x00, 0xff, 0x00],
    Stride := 3 * 4, W := 3, H := 2 }

/-- The golden buffer of `TestRotate180`. -/
def goldenRotate180 : NRGBA :=
  { Pix := [0x00, 0x00, 0x00, 0xff, 0x00, 0x00, 0xff, 0x00,
            0x00, 0xff, 0x00, 0x00, 0xff, 0x00, 0x00, 0x00,
            0xcc, 0xdd, 0xee, 0xff, 0x00, 0x11, 0x22, 0x33],
    Stride := 2 * 4, W := 2, H := 3 }

/-- The golden buffer of `TestRotate270`. -/
def goldenRotate270 : NRGBA :=
  { Pix := [0x00, 0x00, 0xff, 0x00, 0xff, 0x00, 0x00, 0x00, 0x00, 0x11, 0x22, 0x33,
            0x00, 0x00, 0x00, 0xff, 0x00, 0xff, 0x00, 0x00, 0xcc, 0xdd, 0xee, 0xff],
    Stride := 3 * 4, W := 3, H := 2 }

/-- The golden buffer of `TestFlipV`. -/
def goldenFlipV : NRGBA :=
  { Pix := [0x00, 0x00, 0xff, 0x00, 0x00, 0x00, 0x00, 0xff,
            0xff, 0x00, 0x00, 0x00, 0x00, 0xff, 0x00, 0x00,
            0x00, 0x11, 0x22, 0x33, 0xcc, 0xdd, 0xee, 0xff],
    Stride := 2 * 4, W := 2, H := 3 }

/-- The golden buffer of `TestFlipH`. -/
def goldenFlipH : NRGBA :=
  { Pix := [0xcc, 0xdd, 0xee, 0xff, 0x00, 0x11, 0x22, 0x33,
            0x00, 0xff, 0x00, 0x00, 0xff, 0x00, 0x00, 0x00,
            0x00, 0x00, 0x00, 0xff, 0x00, 0x00, 0xff, 0x00],
    Stride := 2 * 4, W := 2, H := 3 }

/-- The state of the destination after the first `k` pixels, in row-major
order, have been copied. -/
def Filled (f : Nat → Nat → Nat → Nat → Nat × Nat) (dstW dstH : Nat) (src : NRGBA)
    (k : Nat) (dst : NRGBA) : Prop :=
  dst.W = dstW ∧ dst.H = dstH ∧ dst.Stride = 4 * dstW ∧ dst.Pix.length = 4 * dstW * dstH ∧
    ∀ dx dy, dx < dstW → dy < dstH → dy * dstW + dx < k →
      pixelAt dst dx dy = pixelAt src (f dstW dstH dx dy).1 (f dstW dstH dx dy).2

/-- The map `f` sends the `dstW × dstH` grid into the `srcW × srcH` grid, sends
no two destination coordinates to the same source coordinate, and reaches every
source coordinate from exactly one destination coordinate. -/
def GridBijection (f : Nat → Nat → Nat × Nat) (dstW dstH srcW srcH : Nat) : Prop :=
  (∀ dx dy, dx < dstW → dy < dstH → (f dx dy).1 < srcW ∧ (f dx dy).2 < srcH) ∧
  (∀ dx dy dx' dy', dx < dstW → dy < dstH → dx' < dstW → dy' < dstH →
    f dx dy = f dx' dy' → dx = dx' ∧ dy = dy') ∧
  (∀ sx sy, sx < srcW → sy < srcH →
    ∃! p : Nat × Nat, p.1 < dstW ∧ p.2 < dstH ∧ f p.1 p.2 = (sx, sy))

/-- Modelled from the spec: a run of the work partitioner `parallel` (not among
the source files) that hands the body the sub-ranges of `parts` one after
another, in the order of the list, and stops at the first panic. -/
def parallelOn {σ : Type} (parts : List (Nat × Nat)) (fn : Nat → Nat → σ → Option σ)
    (s : σ) : Option σ :=
  match parts with
  | [] => some s
  | p :: ps => (fn p.1 p.2 s).bind (parallelOn ps fn)

/-- Modelled from the spec: the sub-ranges `[start, end)` the work partitioner
may hand out for the index range `[0, n)` in section 6, in whatever order they
are listed: each lies inside `[0, n)` and every index below `n` belongs to
exactly one of them (they are disjoint and together cover the range). -/
def IsPartition (n : Nat) (parts : List (Nat × Nat)) : Prop :=
  (∀ p ∈ parts, p.1 ≤ p.2 ∧ p.2 ≤ n) ∧
  ∀ i, i < n → (parts.filter (fun p => decide (p.1 ≤ i ∧ i < p.2))).length = 1

/-- The function `Rotate90` of `transform.go`, run by the partitioner on the
sub-ranges `parts`. -/
def Rotate90On (parts : List (Nat × Nat)) (img : NRGBA) : Option NRGBA :=
  let src := toNRGBA img
  let srcW := src.W
  let srcH := src.H
  let dstW := srcH
  let dstH := srcW
  let dst := NewNRGBA dstW dstH
  parallelOn parts (fun partStart partEnd dst =>
    forLoop partStart partEnd (fun dstY dst =>
      forLoop 0 dstW (fun dstX dst =>
        let srcX := dstH - dstY - 1
        let srcY := dstX
        let srcOff := srcY * src.Stride + srcX * 4
        let dstOff := dstY * dst.Stride + dstX * 4
        copyPix dst dstOff src srcOff) dst) dst) dst

/-- The function `Rotate180` of `transform.go`, run by the partitioner on the
sub-ranges `parts`. -/
def Rotate180On (parts : List (Nat × Nat)) (img : NRGBA) : Option NRGBA :=
  let src := toNRGBA img
  let srcW := src.W
  let srcH := src.H
  let dstW := srcW
  let dstH := srcH
  let dst := NewNRGBA dstW dstH
  parallelOn parts (fun partStart partEnd dst =>
    forLoop partStart partEnd (fun dstY dst =>
      forLoop 0 dstW (fun dstX dst =>
        let srcX := dstW - dstX - 1
        let srcY := dstH - dstY - 1
        let srcOff := srcY * src.Stride + srcX * 4
        let dstOff := dstY * dst.Stride + dstX * 4
        copyPix dst dstOff src srcOff) dst) dst) dst

/-- The function `Rotate270` of `transform.go`, run by the partitioner on the
sub-ranges `parts`. -/
def Rotate270On (parts : List (Nat × Nat)) (img : NRGBA) : Option NRGBA :=
  let src := toNRGBA img
  let srcW := src.W
  let srcH := src.H
  let dstW := srcH
  let dstH := srcW
  let dst := NewNRGBA dstW dstH
  parallelOn parts (fun partStart partEnd dst =>
    forLoop partStart partEnd (fun dstY dst =>
      forLoop 0 dstW (fun dstX dst =>
        let srcX := dstY
        let srcY := dstW - dstX - 1
        let srcOff := srcY * src.Stride + srcX * 4
        let dstOff := dstY * dst.Stride + dstX * 4
        copyPix dst dstOff src srcOff) dst) dst) dst

/-- The function `FlipH` of `transform.go`, run by the partitioner on the
sub-ranges `parts`. -/
def FlipHOn (parts : List (Nat × Nat)) (img : NRGBA) : Option NRGBA :=
  let src := toNRGBA img
  let srcW := src.W
  let srcH := src.H
  let dstW := srcW
  let dstH := srcH
  let dst := NewNRGBA dstW dstH
  parallelOn parts (fun partStart partEnd dst =>
    forLoop partStart partEnd (fun dstY dst =>
      forLoop 0 dstW (fun dstX dst =>
        let srcX := dstW - dstX - 1
        let srcY := dstY
        let srcOff := srcY * src.Stride + srcX * 4
        let dstOff := dstY * dst.Stride + dstX * 4
        copyPix dst dstOff src srcOff) dst) dst) dst

/-- The function `FlipV` of `transform.go`, run by the partitioner on the
sub-ranges `parts`. -/
def FlipVOn (parts : List (Nat × Nat)) (img : NRGBA) : Option NRGBA :=
  let src := toNRGBA img
  let srcW := src.W
  let srcH := src.H
  let dstW := srcW
  let dstH := srcH
  let dst := NewNRGBA dstW dstH
  parallelOn parts (fun partStart partEnd dst =>
    forLoop partStart partEnd (fun dstY dst =>
      forLoop 0 dstW (fun dstX dst =>
        let srcX := dstX
        let srcY := dstH - dstY - 1
        let srcOff := srcY * src.Stride + srcX * 4
        let dstOff := dstY * dst.Stride + dstX * 4
        copyPix dst dstOff src srcOff) dst) dst) dst

/-- The common shape of the five rigid transforms when the partitioner runs
the row loop on the sub-ranges `parts`. -/
def rigidOn (f : Nat → Nat → Nat → Nat → Nat × Nat) (dstW dstH : Nat) (src : NRGBA)
    (parts : List (Nat × Nat)) : Option NRGBA :=
  parallelOn parts (fun partStart partEnd dst =>
    forLoop partStart partEnd (fun dstY dst =>
      forLoop 0 dstW (fun dstX dst =>
        copyPix dst (dstY * dst.Stride + dstX * 4) src
          ((f dstW dstH dstX dstY).2 * src.Stride + (f dstW dstH dstX dstY).1 * 4)) dst) dst)
    (NewNRGBA dstW dstH)

/-- The state of the destination in which exactly the pixels selected by `R`
have been copied from the source and all others still hold the zero bytes of
the allocation. -/
def Written (f : Nat → Nat → Nat → Nat → Nat × Nat) (dstW dstH : Nat) (src : NRGBA)
    (R : Nat → Nat → Prop) (dst : NRGBA) : Prop :=
  dst.W = dstW ∧ dst.H = dstH ∧ dst.Stride = 4 * dstW ∧ dst.Pix.length = 4 * dstW * dstH ∧
    ∀ dx dy, dx < dstW → dy < dstH →
      (R dx dy → pixelAt dst dx dy = pixelAt src (f dstW dstH dx dy).1 (f dstW dstH dx dy).2) ∧
      (¬ R dx dy → pixelAt dst dx dy = [0, 0, 0, 0])

/-- What the specification says of a transform `T`, of its run `TOn` on given
sub-ranges and of its `dstW × dstH` destination: the transform returns a
destination `dst`; every run on sub-ranges that partition the rows `[0, dstH)`,
in any order, returns that same `dst`; and the run on a single sub-range
`[a, b)` leaves the zero bytes of the allocation in every row it does not own
and produces the pixels of `dst` in the rows it owns. -/
def ScheduleIndependent (T : NRGBA → Option NRGBA)
    (TOn : List (Nat × Nat) → NRGBA → Option NRGBA) (dstW dstH : Nat) (img : NRGBA) : Prop :=
  ∃ dst, T img = some dst ∧ TOn [(0, dstH)] img = some dst ∧
    (∀ parts, IsPartition dstH parts → TOn parts img = some dst) ∧
    (∀ a b, a ≤ b → b ≤ dstH → ∃ d, TOn [(a, b)] img = some d ∧
      ∀ dx dy, dx < dstW → dy < dstH →
        ((a ≤ dy ∧ dy < b) → pixelAt d dx dy = pixelAt dst dx dy) ∧
        (¬ (a ≤ dy ∧ dy < b) → pixelAt d dx dy = [0, 0, 0, 0]))

/-- What the specification says of the byte ranges of a transform `T` whose
loop copies destination pixel `(dx, dy)` of a fresh `dstW × dstH` buffer from
the source coordinate `f dstW dstH dx dy`: the destination is allocated with
stride `4*dstW` and `4*dstW*dstH` bytes, every four-byte range read from the
source and written to the destination lies inside its byte array, and the
transform returns a buffer. -/
def AccessesInBounds (T : NRGBA → Option NRGBA) (f : Nat → Nat → Nat → Nat → Nat × Nat)
    (dstW dstH : Nat) (img : NRGBA) : Prop :=
  T img = rigid f dstW dstH img ∧
  (NewNRGBA dstW dstH).Stride = 4 * dstW ∧
  (NewNRGBA dstW dstH).Pix.length = 4 * dstW * dstH ∧
  (∀ dstX dstY, dstX < dstW → dstY < dstH →
    (f dstW dstH dstX dstY).2 * img.Stride + (f dstW dstH dstX dstY).1 * 4 + 4
        ≤ img.Pix.length ∧
    dstY * (NewNRGBA dstW dstH).Stride + dstX * 4 + 4 ≤ (NewNRGBA dstW dstH).Pix.length) ∧
  ∃ dst, T img = some dst ∧ dst.Pix.length = 4 * dstW * dstH

/-- A finite value of the Go type `float64` (IEEE 754 binary64), written
`m * 2^e`.  Signed zeros, infinities, NaN and the limits of the exponent are
not modelled: `Skew` divides only inside its loop, where the divisors
`dstHalfW` and `dstHalfH` are not zero, and the magnitudes it computes with
are bounded by the sizes of buffers that fit in memory. -/
structure F64 where
  m : Int
  e : Int
deriving DecidableEq, Repr

/-- The number of binary digits of `n`, with `fuel` digits examined at most. -/
def bitLenAux : Nat → Nat → Nat
  | 0, _ => 0
  | fuel + 1, n => if n = 0 then 0 else bitLenAux fuel (n / 2) + 1

/-- The number of binary digits of `n`. -/
def bitLen (n : Nat) : Nat := bitLenAux n n

/-- Rounding to nearest, ties to even, to the 53 binary digits of a `float64`
significand: the value is `± (q + t) * 2^e` where the fraction `t < 1` is zero
unless `sticky`. -/
def F64.round (neg : Bool) (q : Nat) (sticky : Bool) (e : Int) : F64 :=
  let k := bitLen q - 53
  if k = 0 then ⟨if neg then -(q : Int) else (q : Int), e⟩
  else
    let hi := q / 2 ^ k
    let lo := q % 2 ^ k
    let half := 2 ^ (k - 1)
    let up := decide (half < lo) || (decide (lo = half) && (sticky || decide (hi % 2 = 1)))
    let r := if up then hi + 1 else hi
    ⟨if neg then -(r : Int) else (r : Int), e + (k : Int)⟩

/-- The conversion `float64(n)` of an integer. -/
def F64.ofInt (n : Int) : F64 := F64.round (decide (n < 0)) n.natAbs false 0

/-- The `float64` sum `a + b`. -/
def F64.add (a b : F64) : F64 :=
  let e := min a.e b.e
  let s := a.m * 2 ^ (a.e - e).toNat + b.m * 2 ^ (b.e - e).toNat
  F64.round (decide (s < 0)) s.natAbs false e

/-- The `float64` difference `a - b`. -/
def F64.sub (a b : F64) : F64 :=
  let e := min a.e b.e
  let s := a.m * 2 ^ (a.e - e).toNat - b.m * 2 ^ (b.e - e).toNat
  F64.round (decide (s < 0)) s.natAbs false e

/-- The `float64` product `a * b`. -/
def F64.mul (a b : F64) : F64 :=
  let s := a.m * b.m
  F64.round (decide (s < 0)) s.natAbs false (a.e + b.e)

/-- The `float64` quotient `a / b` for `b` not zero: the quotient of the
significands is computed to at least 64 binary digits, the rest is recorded in
the sticky flag. -/
def F64.div (a b : F64) : F64 :=
  if b.m = 0 then ⟨0, 0⟩
  else
    let s := 64 + bitLen b.m.natAbs
    let num := a.m.natAbs * 2 ^ s
    F64.round (xor (decide (a.m < 0)) (decide (b.m < 0))) (num / b.m.natAbs)
      (decide (num % b.m.natAbs ≠ 0)) (a.e - b.e - (s : Int))

/-- The conversion `int(f)` of a `float64`: the fraction is discarded. -/
def F64.toInt (a : F64) : Int :=
  if 0 ≤ a.e then a.m * 2 ^ a.e.toNat else a.m.tdiv (2 ^ (-a.e).toNat)

/-- The standard library type `image.Rectangle`. -/
structure Rectangle where
  MinX : Int
  MinY : Int
  MaxX : Int
  MaxY : Int
deriving DecidableEq, Repr

/-- The standard library function `image.Rect`, which swaps the coordinates
where needed so that the minimum is not above the maximum. -/
def Rect (x0 y0 x1 y1 : Int) : Rectangle :=
  { MinX := if x0 > x1 then x1 else x0,
    MinY := if y0 > y1 then y1 else y0,
    MaxX := if x0 > x1 then x0 else x1,
    MaxY := if y0 > y1 then y0 else y1 }

/-- The pixel buffer `image.NRGBA` with its bounds rectangle, as
`image.NewNRGBA` returns it for the destination of `Skew`, whose size
`srcW + xOffset` by `srcH + yOffset` can be negative. -/
structure ImageNRGBA where
  Pix : List Nat
  Stride : Int
  Rect : Rectangle
deriving DecidableEq, Repr

/-- The standard library constructor `image.NewNRGBA(r)`. -/
def NewNRGBAIn (r : Rectangle) : ImageNRGBA :=
  let w := r.MaxX - r.MinX
  let h := r.MaxY - r.MinY
  { Pix := List.replicate (4 * w * h).toNat 0, Stride := 4 * w, Rect := r }

/-- The standard library method `(*image.NRGBA).PixOffset`. -/
def ImageNRGBA.PixOffset (p : ImageNRGBA) (x y : Int) : Int :=
  (y - p.Rect.MinY) * p.Stride + (x - p.Rect.MinX) * 4

/-- The method `PixOffset` on a source buffer, whose bounds start at the
origin. -/
def NRGBA.PixOffset (p : NRGBA) (x y : Int) : Int :=
  (y - 0) * (p.Stride : Int) + (x - 0) * 4

/-- The standard library type `color.NRGBA`. -/
structure ColorNRGBA where
  R : Nat
  G : Nat
  B : Nat
  A : Nat
deriving DecidableEq, Repr

/-- The index expression `pix[i]` as a read: a panic when `i` is out of
range. -/
def readByte (pix : List Nat) (i : Int) : Option Nat :=
  if 0 ≤ i ∧ i < (pix.length : Int) then pix[i.toNat]? else none

/-- The function `aliasedAddPixel` of `transform.go`, for the whole numbers
`x` and `y` that `Skew` passes.  Arithmetic on `uint8` wraps modulo 256.  The
conversion `uint8(opacity)` keeps the low eight bits, as the Go compiler does
for a value in the range of `int32`; the language leaves a conversion of a
value above 255 to the implementation. -/
def aliasedAddPixel (img : ImageNRGBA) (x y : Int) (px py : Int) (col : ColorNRGBA) :
    Option ImageNRGBA :=
  let offset := img.PixOffset px py
  let opacity : Int := (((255 * col.A) % 256 : Nat) : Int) * ((px - x) ^ 2 + (py - y) ^ 2)
  if opacity < 0 then some img
  else if 0 ≤ offset ∧ offset + 3 < (img.Pix.length : Int) then
    let o := offset.toNat
    let pix := img.Pix
    let pix :=
      if pix.getD (o + 3) 0 = 0 then
        ((pix.set (o + 0) col.R).set (o + 1) col.G).set (o + 2) col.B
      else
        let pix := pix.set (o + 0) (((col.R + pix.getD (o + 0) 0) % 256) / 2)
        let pix := pix.set (o + 1) (((col.G + pix.getD (o + 1) 0) % 256) / 2)
        pix.set (o + 3) (((col.B + pix.getD (o + 3) 0) % 256) / 2)
    let pix := pix.set (o + 3) ((pix.getD (o + 3) 0 + opacity.toNat % 256) % 256)
    some { img with Pix := pix }
  else none

/-- The function `aliasedAdd` of `transform.go`, for whole numbers `x` and
`y`, for which `int(x)` is `x`. -/
def aliasedAdd (img : ImageNRGBA) (x y : Int) (col : ColorNRGBA) : Option ImageNRGBA :=
  (aliasedAddPixel img x y x y col).bind fun img =>
  (aliasedAddPixel img x y x (y + 1) col).bind fun img =>
  (aliasedAddPixel img x y (x + 1) y col).bind fun img =>
  aliasedAddPixel img x y (x + 1) (y + 1) col

/-- The function `Skew` of `transform.go`. -/
def Skew (img : NRGBA) (xOffset yOffset : Int) : Option ImageNRGBA :=
  let src := toNRGBA img
  let srcW : Int := src.W
  let srcH : Int := src.H
  let dstW := srcW + xOffset
  let dstH := srcH + yOffset
  let dst := NewNRGBAIn (Rect 0 0 dstW dstH)
  let srcHalfW := F64.div (F64.ofInt srcW) (F64.ofInt 2)
  let srcHalfH := F64.div (F64.ofInt srcH) (F64.ofInt 2)
  let dstHalfW := F64.div (F64.ofInt dstW) (F64.ofInt 2)
  let dstHalfH := F64.div (F64.ofInt dstH) (F64.ofInt 2)
  let xOffsetFloat := F64.ofInt xOffset
  let yOffsetFloat := F64.ofInt yOffset
  parallel (dstW * dstH).toNat (fun partStart partEnd dst =>
    forLoop partStart partEnd (fun dstPixel dst =>
      let dstY := (dstPixel : Int).tdiv dstH
      let dstX := (dstPixel : Int) - (dstPixel : Int).tmod dstH
      let xDelta :=
        F64.mul (F64.sub (F64.div (F64.ofInt dstX) dstHalfW) (F64.ofInt 1)) xOffsetFloat
      let yDelta :=
        F64.mul (F64.sub (F64.div (F64.ofInt dstY) dstHalfH) (F64.ofInt 1)) yOffsetFloat
      let srcX := F64.toInt (F64.add srcHalfW xDelta)
      let srcY := F64.toInt (F64.add srcHalfH yDelta)
      let offset := src.PixOffset srcX srcY
      (readByte src.Pix (offset + 0)).bind fun r =>
      (readByte src.Pix (offset + 1)).bind fun g =>
      (readByte src.Pix (offset + 2)).bind fun b =>
      (readByte src.Pix (offset + 3)).bind fun a =>
      aliasedAdd dst dstX dstY { R := r, G := g, B := b, A := a }) dst) dst

/-- The function `Skew` of `transform.go`, run by the partitioner on the
sub-ranges `parts` of the flattened index range. -/
def SkewOn (parts : List (Nat × Nat)) (img : NRGBA) (xOffset yOffset : Int) :
    Option ImageNRGBA :=
  let src := toNRGBA img
  let srcW : Int := src.W
  let srcH : Int := src.H
  let dstW := srcW + xOffset
  let dstH := srcH + yOffset
  let dst := NewNRGBAIn (Rect 0 0 dstW dstH)
  let srcHalfW := F64.div (F64.ofInt srcW) (F64.ofInt 2)
  let srcHalfH := F64.div (F64.ofInt srcH) (F64.ofInt 2)
  let dstHalfW := F64.div (F64.ofInt dstW) (F64.ofInt 2)
  let dstHalfH := F64.div (F64.ofInt dstH) (F64.ofInt 2)
  let xOffsetFloat := F64.ofInt xOffset
  let yOffsetFloat := F64.ofInt yOffset
  parallelOn parts (fun partStart partEnd dst =>
    forLoop partStart partEnd (fun dstPixel dst =>
      let dstY := (dstPixel : Int).tdiv dstH
      let dstX := (dstPixel : Int) - (dstPixel : Int).tmod dstH
      let xDelta :=
        F64.mul (F64.sub (F64.div (F64.ofInt dstX) dstHalfW) (F64.ofInt 1)) xOffsetFloat
      let yDelta :=
        F64.mul (F64.sub (F64.div (F64.ofInt dstY) dstHalfH) (F64.ofInt 1)) yOffsetFloat
      let srcX := F64.toInt (F64.add srcHalfW xDelta)
      let srcY := F64.toInt (F64.add srcHalfH yDelta)
      let offset := src.PixOffset srcX srcY
      (readByte src.Pix (offset + 0)).bind fun r =>
      (readByte src.Pix (offset + 1)).bind fun g =>
      (readByte src.Pix (offset + 2)).bind fun b =>
      (readByte src.Pix (offset + 3)).bind fun a =>
      aliasedAdd dst dstX dstY { R := r, G := g, B := b, A := a }) dst) dst

/-- The destination coordinate `(dstX, dstY)` the loop body of `Skew` decodes
from the flattened index `dstPixel`. -/
def skewDst (dstH : Int) (dstPixel : Nat) : Int × Int :=
  ((dstPixel : Int) - (dstPixel : Int).tmod dstH, (dstPixel : Int).tdiv dstH)

/-- The source coordinate `(srcX, srcY)` the loop body of `Skew` computes for
the decoded destination coordinate `(dstX, dstY)`. -/
def skewSrc (srcW srcH xOffset yOffset : Int) (dstX dstY : Int) : Int × Int :=
  (F64.toInt (F64.add (F64.div (F64.ofInt srcW) (F64.ofInt 2))
      (F64.mul (F64.sub (F64.div (F64.ofInt dstX)
        (F64.div (F64.ofInt (srcW + xOffset)) (F64.ofInt 2))) (F64.ofInt 1))
        (F64.ofInt xOffset))),
   F64.toInt (F64.add (F64.div (F64.ofInt srcH) (F64.ofInt 2))
      (F64.mul (F64.sub (F64.div (F64.ofInt dstY)
        (F64.div (F64.ofInt (srcH + yOffset)) (F64.ofInt 2))) (F64.ofInt 1))
        (F64.ofInt yOffset))))

/-- The four bytes `Skew` reads at a byte offset of the source, as a colour. -/
def readColor (pix : List Nat) (offset : Int) : Option ColorNRGBA :=
  (readByte pix (offset + 0)).bind fun r =>
  (readByte pix (offset + 1)).bind fun g =>
  (readByte pix (offset + 2)).bind fun b =>
  (readByte pix (offset + 3)).bind fun a =>
  some { R := r, G := g, B := b, A := a }

/-- The four destination coordinates `aliasedAdd` passes to `aliasedAddPixel`,
in the order of the calls. -/
def aliasedAddTargets (x y : Int) : List (Int × Int) :=
  [(x, y), (x, y + 1), (x + 1, y), (x + 1, y + 1)]

/-- The body of the loop of `Skew` for one flattened index. -/
def skewBody (src : NRGBA) (xOffset yOffset : Int) (dstPixel : Nat) (dst : ImageNRGBA) :
    Option ImageNRGBA :=
  (readColor src.Pix (src.PixOffset
      (skewSrc src.W src.H xOffset yOffset
        (skewDst ((src.H : Int) + yOffset) dstPixel).1
        (skewDst ((src.H : Int) + yOffset) dstPixel).2).1
      (skewSrc src.W src.H xOffset yOffset
        (skewDst ((src.H : Int) + yOffset) dstPixel).1
        (skewDst ((src.H : Int) + yOffset) dstPixel).2).2)).bind fun col =>
    aliasedAdd dst (skewDst ((src.H : Int) + yOffset) dstPixel).1
      (skewDst ((src.H : Int) + yOffset) dstPixel).2 col

/-- The weight `aliasedAddPixel` adds to the alpha byte, before its conversion
to `uint8`. -/
def opacityOf (x y px py : Int) (col : ColorNRGBA) : Int :=
  (((255 * col.A) % 256 : Nat) : Int) * ((px - x) ^ 2 + (py - y) ^ 2)

/-- The four bytes `aliasedAddPixel` leaves in a pixel that held `old`, for the
incoming colour `col` and the weight `w`. -/
def blend4 (old : List Nat) (col : ColorNRGBA) (w : Nat) : List Nat :=
  if old.getD 3 0 = 0 then [col.R, col.G, col.B, (0 + w % 256) % 256]
  else [((col.R + old.getD 0 0) % 256) / 2, ((col.G + old.getD 1 0) % 256) / 2, old.getD 2 0,
    (((col.B + old.getD 3 0) % 256) / 2 + w % 256) % 256]

/-- The byte list after `aliasedAddPixel` has blended into the pixel at byte
offset `o`. -/
def blendAt (pix : List Nat) (o : Nat) (col : ColorNRGBA) (w : Nat) : List Nat :=
  pix.take o ++ blend4 (slice4 pix o) col w ++ pix.drop (o + 4)

/-- The steps `body i` for the indices `i` of a list, one after another,
stopping at the first panic. -/
def runList {σ : Type} (body : Nat → σ → Option σ) : List Nat → σ → Option σ
  | [], s => some s
  | i :: l, s => (body i s).bind (runList body l)

/-- The indices the sub-ranges `parts` hand to a loop body, in the order in
which they are processed. -/
def indicesOf (parts : List (Nat × Nat)) : List Nat :=
  match parts with
  | [] => []
  | p :: ps => List.range' p.1 (p.2 - p.1) ++ indicesOf ps

/-- The stride, the bounds and the number of bytes of `d` are those of `d0`. -/
def SameShape (d0 d : ImageNRGBA) : Prop :=
  d.Stride = d0.Stride ∧ d.Rect = d0.Rect ∧ d.Pix.length = d0.Pix.length

/-- The four bytes of the pixel at coordinate `(x, y)` of a buffer with
bounds. -/
def ImageNRGBA.pixelAt (d : ImageNRGBA) (x y : Int) : List Nat :=
  slice4 d.Pix (d.PixOffset x y).toNat

/-- A source image of one pixel. -/
def skewPixel : NRGBA :=
  { Pix := [10, 20, 30, 40], Stride := 4, W := 1, H := 1 }

/-- A source image one pixel wide and three pixels high. -/
def skewColumn : NRGBA :=
  { Pix := [10, 20, 30, 40, 50, 60, 70, 80, 90, 100, 110, 120], Stride := 4, W := 1, H := 3 }

/-- The buffer `Skew` returns for `skewColumn` with offsets `(0, 0)`. -/
def skewColumnResult : ImageNRGBA :=
  { Pix := [50, 60, 70, 0, 50, 60, 70, 46, 50, 60, 70, 220], Stride := 4,
    Rect := { MinX := 0, MinY := 0, MaxX := 1, MaxY := 3 } }

/-- The buffer `Skew` returns for the 2x3 test fixture with offsets
`(-1, 3)`. -/
def skewFixtureResult : ImageNRGBA :=
  { Pix := [0, 17, 34, 0, 0, 17, 34, 0, 0, 17, 34, 0,
            0, 0, 0, 0, 0, 0, 0, 0, 0, 0, 0, 0], Stride := 4,
    Rect := { MinX := 0, MinY := 0, MaxX := 1, MaxY := 6 } }

/-- A destination of one pixel that already holds a colour. -/
def blendTarget : ImageNRGBA :=
  { Pix := [200, 20, 30, 40], Stride := 4,
    Rect := { MinX := 0, MinY := 0, MaxX := 1, MaxY := 1 } }

/-- A fresh destination one pixel wide and two pixels high. -/
def freshTarget : ImageNRGBA := NewNRGBAIn (Rect 0 0 1 2)

/-- Two steps give the same outcome in either order on every state that
satisfies `Inv`. -/
def CommOn {σ : Type} (Inv : σ → Prop) (f g : σ → Option σ) : Prop :=
  ∀ s, Inv s → (f s).bind g = (g s).bind f

/-- A step keeps `Inv` whenever it returns. -/
def Keeps {σ : Type} (Inv : σ → Prop) (f : σ → Option σ) : Prop :=
  ∀ s s', Inv s → f s = some s' → Inv s'

/-- The call `aliasedAddPixel(img, x, y, px, py, col)` for the target
`t = (px, py)`, as a step on the destination. -/
def pixelOp (x y : Int) (col : ColorNRGBA) (t : Int × Int) (img : ImageNRGBA) :
    Option ImageNRGBA :=
  aliasedAddPixel img x y t.1 t.2 col

/-- A source image two pixels wide and six pixels high, on which `Skew` with
offsets `(0, 0)` completes. -/
def skewTall : NRGBA :=
  { Pix := [11, 48, 85, 122, 159, 196, 233, 14, 51, 88, 125, 162, 199, 236, 17, 54,
            91, 128, 165, 202, 239, 20, 57, 94, 131, 168, 205, 242, 23, 60, 97, 134,
            171, 208, 245, 26, 63, 100, 137, 174, 211, 248, 29, 66, 103, 140, 177, 214],
    Stride := 8, W := 2, H := 6 }

/-! ## Loops -/

theorem loopFrom_inv {σ : Type} (P : Nat → σ → Prop) (body : Nat → σ → Option σ) :
    ∀ (n lo : Nat) (s : σ), P lo s →
      (∀ i t, lo ≤ i → i < lo + n → P i t → ∃ t', body i t = some t' ∧ P (i + 1) t') →
      ∃ s', loopFrom body lo n s = some s' ∧ P (lo + n) s' := by
  intro n
  induction n with
  | zero => intro lo s h _; exact ⟨s, rfl, by simpa using h⟩
  | succ n ih =>
    intro lo s h step
    obtain ⟨t, ht, hP⟩ := step lo s (Nat.le_refl lo) (by omega) h
    obtain ⟨s', hs', hP'⟩ := ih (lo + 1) t hP (fun i u h1 h2 hu => step i u (by omega) (by omega) hu)
    refine ⟨s', ?_, ?_⟩
    · simp [loopFrom, ht, hs']
    · have : lo + (n + 1) = lo + 1 + n := by omega
      rw [this]; exact hP'

theorem forLoop_inv {σ : Type} (P : Nat → σ → Prop) (body : Nat → σ → Option σ)
    (hi : Nat) (s : σ) (h0 : P 0 s)
    (step : ∀ i t, i < hi → P i t → ∃ t', body i t = some t' ∧ P (i + 1) t') :
    ∃ s', forLoop 0 hi body s = some s' ∧ P hi s' := by
  have := loopFrom_inv P body hi 0 s h0 (fun i t _ h2 ht => step i t (by omega) ht)
  simpa [forLoop] using this

/-! ## Slices -/

theorem slice4_length (p : List Nat) (off : Nat) (h : off + 4 ≤ p.length) :
    (slice4 p off).length = 4 := by
  simp [slice4]; omega

theorem written_length (d b : List Nat) (o : Nat) (h : o + 4 ≤ d.length) (hb : b.length = 4) :
    (d.take o ++ b ++ d.drop (o + 4)).length = d.length := by
  simp [hb]; omega

theorem slice4_written_same (d b : List Nat) (o : Nat) (h : o + 4 ≤ d.length)
    (hb : b.length = 4) : slice4 (d.take o ++ b ++ d.drop (o + 4)) o = b := by
  unfold slice4
  have h1 : (d.take o).length = o := by simp; omega
  rw [List.append_assoc, List.drop_left' h1, List.take_left' hb]

theorem slice4_written_other (d b : List Nat) (o o' : Nat) (h : o + 4 ≤ d.length)
    (hb : b.length = 4) (hd : o' + 4 ≤ o ∨ o + 4 ≤ o') :
    slice4 (d.take o ++ b ++ d.drop (o + 4)) o' = slice4 d o' := by
  unfold slice4
  apply List.ext_getElem?
  intro i
  simp only [List.getElem?_take, List.getElem?_drop]
  split
  · rename_i hi
    rw [List.append_assoc]
    rcases hd with hd | hd
    · rw [List.getElem?_append_left (by simp; omega)]
      simp [List.getElem?_take]; omega
    · rw [List.getElem?_append_right (by simp; omega)]
      rw [List.getElem?_append_right (by simp; omega)]
      simp [List.getElem?_drop]
      congr 1; omega
  · rfl

/-! ## The common double loop -/

theorem flat_index_lt {w h x y : Nat} (hx : x < w) (hy : y < h) : y * w + x < w * h := by
  have h1 : (y + 1) * w ≤ h * w := Nat.mul_le_mul_right w hy
  have h2 : (y + 1) * w = y * w + w := by ring
  have h3 : h * w = w * h := Nat.mul_comm h w
  omega

theorem Filled_step (f : Nat → Nat → Nat → Nat → Nat × Nat) (dstW dstH : Nat) (src : NRGBA)
    (hsrc : WellFormed src)
    (hf : ∀ dx dy, dx < dstW → dy < dstH →
      (f dstW dstH dx dy).1 < src.W ∧ (f dstW dstH dx dy).2 < src.H)
    (x y : Nat) (hx : x < dstW) (hy : y < dstH) (dst : NRGBA)
    (h : Filled f dstW dstH src (y * dstW + x) dst) :
    ∃ dst', copyPix dst (y * dst.Stride + x * 4) src
        ((f dstW dstH x y).2 * src.Stride + (f dstW dstH x y).1 * 4) = some dst' ∧
      Filled f dstW dstH src (y * dstW + (x + 1)) dst' := by
  obtain ⟨hW, hH, hS, hL, hP⟩ := h
  obtain ⟨hs1, hs2⟩ := hsrc
  obtain ⟨hfx, hfy⟩ := hf x y hx hy
  have hk := flat_index_lt hx hy
  have hdoff : y * dst.Stride + x * 4 = 4 * (y * dstW + x) := by rw [hS]; ring
  have hdb : y * dst.Stride + x * 4 + 4 ≤ dst.Pix.length := by
    rw [hdoff, hL, Nat.mul_assoc]; omega
  have hsb : (f dstW dstH x y).2 * src.Stride + (f dstW dstH x y).1 * 4 + 4 ≤ src.Pix.length := by
    have h1 := flat_index_lt (w := src.Stride) (h := src.H) (x := (f dstW dstH x y).1 * 4 + 3)
      (y := (f dstW dstH x y).2) (by omega) hfy
    omega
  have hb := slice4_length src.Pix _ hsb
  refine ⟨{ dst with Pix := (dst.Pix.take (y * dst.Stride + x * 4) ++
      slice4 src.Pix ((f dstW dstH x y).2 * src.Stride + (f dstW dstH x y).1 * 4) ++
      dst.Pix.drop (y * dst.Stride + x * 4 + 4)) }, ?_, hW, hH, hS, ?_, ?_⟩
  · simp only [copyPix, hdb, hsb, and_self, if_true]
  · show (_ ++ _ ++ _ : List Nat).length = _
    rw [written_length _ _ _ hdb hb, hL]
  · intro dx dy hdx hdy hlt
    have hoff : dy * dst.Stride + dx * 4 = 4 * (dy * dstW + dx) := by rw [hS]; ring
    show slice4 (_ ++ _ ++ _) (dy * dst.Stride + dx * 4) = _
    by_cases heq : dy * dstW + dx = y * dstW + x
    · have hxy : dx = x ∧ dy = y := by
        have e1 : (dy * dstW + dx) % dstW = dx := by
          rw [Nat.add_comm, Nat.add_mul_mod_self_right]; exact Nat.mod_eq_of_lt hdx
        have e2 : (y * dstW + x) % dstW = x := by
          rw [Nat.add_comm, Nat.add_mul_mod_self_right]; exact Nat.mod_eq_of_lt hx
        have e3 : (dy * dstW + dx) / dstW = dy := by
          rw [Nat.add_comm, Nat.add_mul_div_right _ _ (by omega), Nat.div_eq_of_lt hdx]; omega
        have e4 : (y * dstW + x) / dstW = y := by
          rw [Nat.add_comm, Nat.add_mul_div_right _ _ (by omega), Nat.div_eq_of_lt hx]; omega
        rw [heq] at e1 e3
        exact ⟨by omega, by omega⟩
      obtain ⟨rfl, rfl⟩ := hxy
      rw [slice4_written_same _ _ _ hdb hb]; rfl
    · rw [slice4_written_other _ _ _ _ hdb hb (by rw [hoff, hdoff]; omega)]
      exact hP dx dy hdx hdy (by omega)

theorem rigid_spec (f : Nat → Nat → Nat → Nat → Nat × Nat) (dstW dstH : Nat) (src : NRGBA)
    (hsrc : WellFormed src)
    (hf : ∀ dx dy, dx < dstW → dy < dstH →
      (f dstW dstH dx dy).1 < src.W ∧ (f dstW dstH dx dy).2 < src.H) :
    ∃ dst, rigid f dstW dstH src = some dst ∧ dst.W = dstW ∧ dst.H = dstH ∧
      dst.Stride = 4 * dstW ∧ dst.Pix.length = 4 * dstW * dstH ∧
      ∀ dx dy, dx < dstW → dy < dstH →
        pixelAt dst dx dy = pixelAt src (f dstW dstH dx dy).1 (f dstW dstH dx dy).2 := by
  have outer := forLoop_inv (fun y dst => Filled f dstW dstH src (y * dstW) dst)
    (fun dstY dst => forLoop 0 dstW (fun dstX dst =>
      copyPix dst (dstY * dst.Stride + dstX * 4) src
        ((f dstW dstH dstX dstY).2 * src.Stride + (f dstW dstH dstX dstY).1 * 4)) dst)
    dstH (NewNRGBA dstW dstH)
    ⟨rfl, rfl, rfl, by simp [NewNRGBA], fun dx dy _ _ h => by omega⟩
    (fun y dst hy hInv => by
      have inner := forLoop_inv (fun x dst => Filled f dstW dstH src (y * dstW + x) dst)
        (fun dstX dst => copyPix dst (y * dst.Stride + dstX * 4) src
          ((f dstW dstH dstX y).2 * src.Stride + (f dstW dstH dstX y).1 * 4))
        dstW dst (by simpa using hInv)
        (fun x t hx ht => Filled_step f dstW dstH src hsrc hf x y hx hy t ht)
      obtain ⟨t, ht, hF⟩ := inner
      refine ⟨t, ht, ?_⟩
      have e : (y + 1) * dstW = y * dstW + dstW := by ring
      show Filled f dstW dstH src ((y + 1) * dstW) t
      rw [e]; exact hF)
  obtain ⟨dst, hdst, hW, hH, hS, hL, hP⟩ := outer
  refine ⟨dst, hdst, hW, hH, hS, hL, fun dx dy hdx hdy => hP dx dy hdx hdy ?_⟩
  have := flat_index_lt hdx hdy
  rw [Nat.mul_comm dstH dstW]; exact this

/-! ## The five transforms as instances of the common loop -/

/-- The code of `Rotate90` is the common loop with the coordinate map `rotate90Src`. -/
theorem Rotate90_eq_rigid (img : NRGBA) :
    Rotate90 img = rigid rotate90Src img.H img.W img := rfl

/-- The code of `Rotate180` is the common loop with the coordinate map `rotate180Src`. -/
theorem Rotate180_eq_rigid (img : NRGBA) :
    Rotate180 img = rigid rotate180Src img.W img.H img := rfl

/-- The code of `Rotate270` is the common loop with the coordinate map `rotate270Src`. -/
theorem Rotate270_eq_rigid (img : NRGBA) :
    Rotate270 img = rigid rotate270Src img.H img.W img := rfl

/-- The code of `FlipH` is the common loop with the coordinate map `flipHSrc`. -/
theorem FlipH_eq_rigid (img : NRGBA) :
    FlipH img = rigid flipHSrc img.W img.H img := rfl

/-- The code of `FlipV` is the common loop with the coordinate map `flipVSrc`. -/
theorem FlipV_eq_rigid (img : NRGBA) :
    FlipV img = rigid flipVSrc img.W img.H img := rfl

theorem pixelAt_length (img : NRGBA) (h : WellFormed img) (x y : Nat) (hx : x < img.W)
    (hy : y < img.H) : (pixelAt img x y).length = 4 := by
  obtain ⟨h1, h2⟩ := h
  apply slice4_length
  have := flat_index_lt (w := img.Stride) (h := img.H) (x := x * 4 + 3) (y := y) (by omega) hy
  omega

theorem Rotate90_spec (img : NRGBA) (h : WellFormed img) :
    ∃ dst, Rotate90 img = some dst ∧ dst.W = img.H ∧ dst.H = img.W ∧
      dst.Stride = 4 * img.H ∧ dst.Pix.length = 4 * img.H * img.W ∧
      ∀ dx dy, dx < img.H → dy < img.W → pixelAt dst dx dy = pixelAt img (img.W - dy - 1) dx := by
  rw [Rotate90_eq_rigid]
  exact rigid_spec rotate90Src img.H img.W img h
    (fun dx dy hx hy => ⟨by simp only [rotate90Src]; omega, hx⟩)

theorem Rotate180_spec (img : NRGBA) (h : WellFormed img) :
    ∃ dst, Rotate180 img = some dst ∧ dst.W = img.W ∧ dst.H = img.H ∧
      dst.Stride = 4 * img.W ∧ dst.Pix.length = 4 * img.W * img.H ∧
      ∀ dx dy, dx < img.W → dy < img.H →
        pixelAt dst dx dy = pixelAt img (img.W - dx - 1) (img.H - dy - 1) := by
  rw [Rotate180_eq_rigid]
  exact rigid_spec rotate180Src img.W img.H img h
    (fun dx dy hx hy => ⟨by simp only [rotate180Src]; omega, by simp only [rotate180Src]; omega⟩)

theorem Rotate270_spec (img : NRGBA) (h : WellFormed img) :
    ∃ dst, Rotate270 img = some dst ∧ dst.W = img.H ∧ dst.H = img.W ∧
      dst.Stride = 4 * img.H ∧ dst.Pix.length = 4 * img.H * img.W ∧
      ∀ dx dy, dx < img.H → dy < img.W → pixelAt dst dx dy = pixelAt img dy (img.H - dx - 1) := by
  rw [Rotate270_eq_rigid]
  exact rigid_spec rotate270Src img.H img.W img h
    (fun dx dy hx hy => ⟨hy, by simp only [rotate270Src]; omega⟩)

theorem FlipH_spec (img : NRGBA) (h : WellFormed img) :
    ∃ dst, FlipH img = some dst ∧ dst.W = img.W ∧ dst.H = img.H ∧
      dst.Stride = 4 * img.W ∧ dst.Pix.length = 4 * img.W * img.H ∧
      ∀ dx dy, dx < img.W → dy < img.H → pixelAt dst dx dy = pixelAt img (img.W - dx - 1) dy := by
  rw [FlipH_eq_rigid]
  exact rigid_spec flipHSrc img.W img.H img h
    (fun dx dy hx hy => ⟨by simp only [flipHSrc]; omega, hy⟩)

theorem FlipV_spec (img : NRGBA) (h : WellFormed img) :
    ∃ dst, FlipV img = some dst ∧ dst.W = img.W ∧ dst.H = img.H ∧
      dst.Stride = 4 * img.W ∧ dst.Pix.length = 4 * img.W * img.H ∧
      ∀ dx dy, dx < img.W → dy < img.H → pixelAt dst dx dy = pixelAt img dx (img.H - dy - 1) := by
  rw [FlipV_eq_rigid]
  exact rigid_spec flipVSrc img.W img.H img h
    (fun dx dy hx hy => ⟨hx, by simp only [flipVSrc]; omega⟩)

/-- The output of a transform satisfies the pixel buffer invariant again. -/
theorem wellFormed_of_packed (dst : NRGBA) (w h : Nat) (hW : dst.W = w) (hH : dst.H = h)
    (hS : dst.Stride = 4 * w) (hL : dst.Pix.length = 4 * w * h) : WellFormed dst := by
  unfold WellFormed
  rw [hW, hH, hS, hL]
  exact ⟨Nat.le_refl _, Nat.le_refl _⟩

/-! ## Claims C1 to C5: what each transform computes -/

/-- C1. For a source buffer of width `W` and height `H` with stride at least
`4*W` and at least `stride*H` bytes, `Rotate90` returns a buffer of width `H`,
height `W` and stride `4*H` whose pixel `(dx, dy)`, for `dx < H` and `dy < W`,
consists of the four bytes of the source pixel `(W - 1 - dy, dx)`. -/
theorem C1_Rotate90_quarter_turn (img : NRGBA) (hStride : 4 * img.W ≤ img.Stride)
    (hLen : img.Stride * img.H ≤ img.Pix.length) :
    ∃ dst, Rotate90 img = some dst ∧ dst.W = img.H ∧ dst.H = img.W ∧ dst.Stride = 4 * img.H ∧
      ∀ dx dy, dx < img.H → dy < img.W →
        (pixelAt dst dx dy).length = 4 ∧
        pixelAt dst dx dy = pixelAt img (img.W - 1 - dy) dx := by
  obtain ⟨dst, h1, h2, h3, h4, _, h6⟩ := Rotate90_spec img ⟨hStride, hLen⟩
  refine ⟨dst, h1, h2, h3, h4, fun dx dy hx hy => ?_⟩
  have e : img.W - 1 - dy = img.W - dy - 1 := by omega
  rw [e, h6 dx dy hx hy]
  exact ⟨pixelAt_length img ⟨hStride, hLen⟩ _ _ (by omega) hx, rfl⟩

/-- The 2x3 fixture of `TestRotate90` is turned into its 3x2 golden buffer, and
C1 holds of it. -/
theorem C1_Rotate90_fixture :
    Rotate90 fixture = some goldenRotate90 ∧
    ∃ dst, Rotate90 fixture = some dst ∧ dst.W = fixture.H ∧ dst.H = fixture.W ∧
      dst.Stride = 4 * fixture.H ∧
      ∀ dx dy, dx < fixture.H → dy < fixture.W →
        (pixelAt dst dx dy).length = 4 ∧
        pixelAt dst dx dy = pixelAt fixture (fixture.W - 1 - dy) dx :=
  ⟨by decide, C1_Rotate90_quarter_turn fixture (by decide) (by decide)⟩

/-- C2. For a source buffer of width `W` and height `H` with stride at least
`4*W` and at least `stride*H` bytes, `Rotate270` returns a buffer of width `H`,
height `W` and stride `4*H` whose pixel `(dx, dy)`, for `dx < H` and `dy < W`,
consists of the four bytes of the source pixel `(dy, H - 1 - dx)`. -/
theorem C2_Rotate270_three_quarter_turn (img : NRGBA) (hStride : 4 * img.W ≤ img.Stride)
    (hLen : img.Stride * img.H ≤ img.Pix.length) :
    ∃ dst, Rotate270 img = some dst ∧ dst.W = img.H ∧ dst.H = img.W ∧ dst.Stride = 4 * img.H ∧
      ∀ dx dy, dx < img.H → dy < img.W →
        (pixelAt dst dx dy).length = 4 ∧
        pixelAt dst dx dy = pixelAt img dy (img.H - 1 - dx) := by
  obtain ⟨dst, h1, h2, h3, h4, _, h6⟩ := Rotate270_spec img ⟨hStride, hLen⟩
  refine ⟨dst, h1, h2, h3, h4, fun dx dy hx hy => ?_⟩
  have e : img.H - 1 - dx = img.H - dx - 1 := by omega
  rw [e, h6 dx dy hx hy]
  exact ⟨pixelAt_length img ⟨hStride, hLen⟩ _ _ hy (by omega), rfl⟩

/-- The 2x3 fixture of `TestRotate270` is turned into its 3x2 golden buffer,
and C2 holds of it. -/
theorem C2_Rotate270_fixture :
    Rotate270 fixture = some goldenRotate270 ∧
    ∃ dst, Rotate270 fixture = some dst ∧ dst.W = fixture.H ∧ dst.H = fixture.W ∧
      dst.Stride = 4 * fixture.H ∧
      ∀ dx dy, dx < fixture.H → dy < fixture.W →
        (pixelAt dst dx dy).length = 4 ∧
        pixelAt dst dx dy = pixelAt fixture dy (fixture.H - 1 - dx) :=
  ⟨by decide, C2_Rotate270_three_quarter_turn fixture (by decide) (by decide)⟩

/-- C3. For a source buffer of width `W` and height `H` with stride at least
`4*W` and at least `stride*H` bytes, `Rotate180` returns a buffer of width `W`,
height `H` and stride `4*W` whose pixel `(dx, dy)`, for `dx < W` and `dy < H`,
consists of the four bytes of the source pixel `(W - dx - 1, H - dy - 1)`. -/
theorem C3_Rotate180_half_turn (img : NRGBA) (hStride : 4 * img.W ≤ img.Stride)
    (hLen : img.Stride * img.H ≤ img.Pix.length) :
    ∃ dst, Rotate180 img = some dst ∧ dst.W = img.W ∧ dst.H = img.H ∧ dst.Stride = 4 * img.W ∧
      ∀ dx dy, dx < img.W → dy < img.H →
        (pixelAt dst dx dy).length = 4 ∧
        pixelAt dst dx dy = pixelAt img (img.W - dx - 1) (img.H - dy - 1) := by
  obtain ⟨dst, h1, h2, h3, h4, _, h6⟩ := Rotate180_spec img ⟨hStride, hLen⟩
  refine ⟨dst, h1, h2, h3, h4, fun dx dy hx hy => ?_⟩
  rw [h6 dx dy hx hy]
  exact ⟨pixelAt_length img ⟨hStride, hLen⟩ _ _ (by omega) (by omega), rfl⟩

/-- The 2x3 fixture of `TestRotate180` is turned into its golden buffer, and C3
holds of it. -/
theorem C3_Rotate180_fixture :
    Rotate180 fixture = some goldenRotate180 ∧
    ∃ dst, Rotate180 fixture = some dst ∧ dst.W = fixture.W ∧ dst.H = fixture.H ∧
      dst.Stride = 4 * fixture.W ∧
      ∀ dx dy, dx < fixture.W → dy < fixture.H →
        (pixelAt dst dx dy).length = 4 ∧
        pixelAt dst dx dy = pixelAt fixture (fixture.W - dx - 1) (fixture.H - dy - 1) :=
  ⟨by decide, C3_Rotate180_half_turn fixture (by decide) (by decide)⟩

/-- C4. For a source buffer of width `W` and height `H` with stride at least
`4*W` and at least `stride*H` bytes, `FlipH` returns a buffer of width `W`,
height `H` and stride `4*W` whose pixel `(dx, dy)`, for `dx < W` and `dy < H`,
consists of the four bytes of the source pixel `(W - dx - 1, dy)`. -/
theorem C4_FlipH_mirrors_columns (img : NRGBA) (hStride : 4 * img.W ≤ img.Stride)
    (hLen : img.Stride * img.H ≤ img.Pix.length) :
    ∃ dst, FlipH img = some dst ∧ dst.W = img.W ∧ dst.H = img.H ∧ dst.Stride = 4 * img.W ∧
      ∀ dx dy, dx < img.W → dy < img.H →
        (pixelAt dst dx dy).length = 4 ∧
        pixelAt dst dx dy = pixelAt img (img.W - dx - 1) dy := by
  obtain ⟨dst, h1, h2, h3, h4, _, h6⟩ := FlipH_spec img ⟨hStride, hLen⟩
  refine ⟨dst, h1, h2, h3, h4, fun dx dy hx hy => ?_⟩
  rw [h6 dx dy hx hy]
  exact ⟨pixelAt_length img ⟨hStride, hLen⟩ _ _ (by omega) hy, rfl⟩

/-- The 2x3 fixture of `TestFlipH` is turned into its golden buffer, and C4
holds of it. -/
theorem C4_FlipH_fixture :
    FlipH fixture = some goldenFlipH ∧
    ∃ dst, FlipH fixture = some dst ∧ dst.W = fixture.W ∧ dst.H = fixture.H ∧
      dst.Stride = 4 * fixture.W ∧
      ∀ dx dy, dx < fixture.W → dy < fixture.H →
        (pixelAt dst dx dy).length = 4 ∧
        pixelAt dst dx dy = pixelAt fixture (fixture.W - dx - 1) dy :=
  ⟨by decide, C4_FlipH_mirrors_columns fixture (by decide) (by decide)⟩

/-- C5. For a source buffer of width `W` and height `H` with stride at least
`4*W` and at least `stride*H` bytes, `FlipV` returns a buffer of width `W`,
height `H` and stride `4*W` whose pixel `(dx, dy)`, for `dx < W` and `dy < H`,
consists of the four bytes of the source pixel `(dx, H - dy - 1)`. -/
theorem C5_FlipV_mirrors_rows (img : NRGBA) (hStride : 4 * img.W ≤ img.Stride)
    (hLen : img.Stride * img.H ≤ img.Pix.length) :
    ∃ dst, FlipV img = some dst ∧ dst.W = img.W ∧ dst.H = img.H ∧ dst.Stride = 4 * img.W ∧
      ∀ dx dy, dx < img.W → dy < img.H →
        (pixelAt dst dx dy).length = 4 ∧
        pixelAt dst dx dy = pixelAt img dx (img.H - dy - 1) := by
  obtain ⟨dst, h1, h2, h3, h4, _, h6⟩ := FlipV_spec img ⟨hStride, hLen⟩
  refine ⟨dst, h1, h2, h3, h4, fun dx dy hx hy => ?_⟩
  rw [h6 dx dy hx hy]
  exact ⟨pixelAt_length img ⟨hStride, hLen⟩ _ _ hx (by omega), rfl⟩

/-- The 2x3 fixture of `TestFlipV` is turned into its golden buffer, and C5
holds of it. -/
theorem C5_FlipV_fixture :
    FlipV fixture = some goldenFlipV ∧
    ∃ dst, FlipV fixture = some dst ∧ dst.W = fixture.W ∧ dst.H = fixture.H ∧
      dst.Stride = 4 * fixture.W ∧
      ∀ dx dy, dx < fixture.W → dy < fixture.H →
        (pixelAt dst dx dy).length = 4 ∧
        pixelAt dst dx dy = pixelAt fixture dx (fixture.H - dy - 1) :=
  ⟨by decide, C5_FlipV_mirrors_rows fixture (by decide) (by decide)⟩

/-! ## Claim C6: the coordinate maps are bijections of the grids -/

theorem rotate90Src_bij (W H : Nat) : GridBijection (rotate90Src H W) H W W H := by
  refine ⟨fun dx dy hx hy => ⟨by simp only [rotate90Src]; omega, hx⟩, ?_, ?_⟩
  · intro dx dy dx' dy' hx hy hx' hy' h
    simp only [rotate90Src, Prod.mk.injEq] at h
    omega
  · intro sx sy hx hy
    refine ⟨(sy, W - sx - 1), ⟨hy, by show W - sx - 1 < W; omega, ?_⟩, ?_⟩
    · simp only [rotate90Src, Prod.mk.injEq, and_true, true_and]; omega
    · rintro ⟨a, b⟩ ⟨ha, hb, h⟩
      simp only [rotate90Src, Prod.mk.injEq] at h ha hb ⊢
      omega

theorem rotate180Src_bij (W H : Nat) : GridBijection (rotate180Src W H) W H W H := by
  refine ⟨fun dx dy hx hy => ⟨by simp only [rotate180Src]; omega,
    by simp only [rotate180Src]; omega⟩, ?_, ?_⟩
  · intro dx dy dx' dy' hx hy hx' hy' h
    simp only [rotate180Src, Prod.mk.injEq] at h
    omega
  · intro sx sy hx hy
    refine ⟨(W - sx - 1, H - sy - 1),
      ⟨by show W - sx - 1 < W; omega, by show H - sy - 1 < H; omega, ?_⟩, ?_⟩
    · simp only [rotate180Src, Prod.mk.injEq, and_true, true_and]; omega
    · rintro ⟨a, b⟩ ⟨ha, hb, h⟩
      simp only [rotate180Src, Prod.mk.injEq] at h ha hb ⊢
      omega

theorem rotate270Src_bij (W H : Nat) : GridBijection (rotate270Src H W) H W W H := by
  refine ⟨fun dx dy hx hy => ⟨hy, by simp only [rotate270Src]; omega⟩, ?_, ?_⟩
  · intro dx dy dx' dy' hx hy hx' hy' h
    simp only [rotate270Src, Prod.mk.injEq] at h
    omega
  · intro sx sy hx hy
    refine ⟨(H - sy - 1, sx), ⟨by show H - sy - 1 < H; omega, hx, ?_⟩, ?_⟩
    · simp only [rotate270Src, Prod.mk.injEq, and_true, true_and]; omega
    · rintro ⟨a, b⟩ ⟨ha, hb, h⟩
      simp only [rotate270Src, Prod.mk.injEq] at h ha hb ⊢
      omega

theorem flipHSrc_bij (W H : Nat) : GridBijection (flipHSrc W H) W H W H := by
  refine ⟨fun dx dy hx hy => ⟨by simp only [flipHSrc]; omega, hy⟩, ?_, ?_⟩
  · intro dx dy dx' dy' hx hy hx' hy' h
    simp only [flipHSrc, Prod.mk.injEq] at h
    omega
  · intro sx sy hx hy
    refine ⟨(W - sx - 1, sy), ⟨by show W - sx - 1 < W; omega, hy, ?_⟩, ?_⟩
    · simp only [flipHSrc, Prod.mk.injEq, and_true, true_and]; omega
    · rintro ⟨a, b⟩ ⟨ha, hb, h⟩
      simp only [flipHSrc, Prod.mk.injEq] at h ha hb ⊢
      omega

theorem flipVSrc_bij (W H : Nat) : GridBijection (flipVSrc W H) W H W H := by
  refine ⟨fun dx dy hx hy => ⟨hx, by simp only [flipVSrc]; omega⟩, ?_, ?_⟩
  · intro dx dy dx' dy' hx hy hx' hy' h
    simp only [flipVSrc, Prod.mk.injEq] at h
    omega
  · intro sx sy hx hy
    refine ⟨(sx, H - sy - 1), ⟨hx, by show H - sy - 1 < H; omega, ?_⟩, ?_⟩
    · simp only [flipVSrc, Prod.mk.injEq, and_true, true_and]; omega
    · rintro ⟨a, b⟩ ⟨ha, hb, h⟩
      simp only [flipVSrc, Prod.mk.injEq] at h ha hb ⊢
      omega

/-- C6. For each of `Rotate90`, `Rotate180`, `Rotate270`, `FlipH` and `FlipV`
and every source of width `W` and height `H`, the code is the row-by-row copy
loop driven by its coordinate map, and that map is a bijection from the
destination grid onto the source grid `[0,W) x [0,H)`: every computed source
coordinate is in bounds, no two destination coordinates share one, and every
source coordinate comes from exactly one destination coordinate. -/
theorem C6_coordinate_maps_bijective (img : NRGBA) :
    (Rotate90 img = rigid rotate90Src img.H img.W img ∧
      GridBijection (rotate90Src img.H img.W) img.H img.W img.W img.H) ∧
    (Rotate180 img = rigid rotate180Src img.W img.H img ∧
      GridBijection (rotate180Src img.W img.H) img.W img.H img.W img.H) ∧
    (Rotate270 img = rigid rotate270Src img.H img.W img ∧
      GridBijection (rotate270Src img.H img.W) img.H img.W img.W img.H) ∧
    (FlipH img = rigid flipHSrc img.W img.H img ∧
      GridBijection (flipHSrc img.W img.H) img.W img.H img.W img.H) ∧
    (FlipV img = rigid flipVSrc img.W img.H img ∧
      GridBijection (flipVSrc img.W img.H) img.W img.H img.W img.H) :=
  ⟨⟨rfl, rotate90Src_bij img.W img.H⟩, ⟨rfl, rotate180Src_bij img.W img.H⟩,
    ⟨rfl, rotate270Src_bij img.W img.H⟩, ⟨rfl, flipHSrc_bij img.W img.H⟩,
    ⟨rfl, flipVSrc_bij img.W img.H⟩⟩

/-- The coordinate maps of the five transforms on the 2x3 test fixture are
bijections of its grids, by C6. -/
theorem C6_coordinate_maps_fixture :
    (Rotate90 fixture = rigid rotate90Src 3 2 fixture ∧
      GridBijection (rotate90Src 3 2) 3 2 2 3) ∧
    (Rotate180 fixture = rigid rotate180Src 2 3 fixture ∧
      GridBijection (rotate180Src 2 3) 2 3 2 3) ∧
    (Rotate270 fixture = rigid rotate270Src 3 2 fixture ∧
      GridBijection (rotate270Src 3 2) 3 2 2 3) ∧
    (FlipH fixture = rigid flipHSrc 2 3 fixture ∧
      GridBijection (flipHSrc 2 3) 2 3 2 3) ∧
    (FlipV fixture = rigid flipVSrc 2 3 fixture ∧
      GridBijection (flipVSrc 2 3) 2 3 2 3) :=
  C6_coordinate_maps_bijective fixture

/-! ## Claim C7: pixels are moved, never altered -/

theorem mem_grid_val (p : Nat × Nat) (w h : Nat) :
    p ∈ (Finset.range w ×ˢ Finset.range h).val ↔ p.1 < w ∧ p.2 < h := by
  rw [Finset.mem_val, Finset.mem_product, Finset.mem_range, Finset.mem_range]

theorem pixelMultiset_eq_of_bij (src dst : NRGBA) (f : Nat → Nat → Nat × Nat)
    (hb : GridBijection f dst.W dst.H src.W src.H)
    (hp : ∀ dx dy, dx < dst.W → dy < dst.H →
      pixelAt dst dx dy = pixelAt src (f dx dy).1 (f dx dy).2) :
    pixelMultiset dst = pixelMultiset src := by
  obtain ⟨hmaps, hinj, hsurj⟩ := hb
  unfold pixelMultiset
  refine Multiset.map_eq_map_of_bij_of_nodup _ _ (Finset.nodup _) (Finset.nodup _)
    (fun p _ => f p.1 p.2) ?_ ?_ ?_ ?_
  · intro p hp'
    have hm := (mem_grid_val p dst.W dst.H).1 hp'
    exact (mem_grid_val _ src.W src.H).2 (hmaps p.1 p.2 hm.1 hm.2)
  · intro p hp' q hq' h
    have hm := (mem_grid_val p dst.W dst.H).1 hp'
    have hn := (mem_grid_val q dst.W dst.H).1 hq'
    have := hinj p.1 p.2 q.1 q.2 hm.1 hm.2 hn.1 hn.2 h
    exact Prod.ext this.1 this.2
  · intro s hs
    have hm := (mem_grid_val s src.W src.H).1 hs
    obtain ⟨p, ⟨h1, h2, h3⟩, _⟩ := hsurj s.1 s.2 hm.1 hm.2
    exact ⟨p, (mem_grid_val p dst.W dst.H).2 ⟨h1, h2⟩, h3⟩
  · intro p hp'
    have hm := (mem_grid_val p dst.W dst.H).1 hp'
    exact hp p.1 p.2 hm.1 hm.2

/-- C7. For each of `Rotate90`, `Rotate180`, `Rotate270`, `FlipH` and `FlipV`
and every source buffer satisfying the pixel buffer invariant, the transform
returns a destination whose multiset of four-byte pixel values equals that of
the source. -/
theorem C7_pixel_multiset_preserved (img : NRGBA) (hStride : 4 * img.W ≤ img.Stride)
    (hLen : img.Stride * img.H ≤ img.Pix.length) :
    (∃ dst, Rotate90 img = some dst ∧ pixelMultiset dst = pixelMultiset img) ∧
    (∃ dst, Rotate180 img = some dst ∧ pixelMultiset dst = pixelMultiset img) ∧
    (∃ dst, Rotate270 img = some dst ∧ pixelMultiset dst = pixelMultiset img) ∧
    (∃ dst, FlipH img = some dst ∧ pixelMultiset dst = pixelMultiset img) ∧
    (∃ dst, FlipV img = some dst ∧ pixelMultiset dst = pixelMultiset img) := by
  have hwf : WellFormed img := ⟨hStride, hLen⟩
  refine ⟨?_, ?_, ?_, ?_, ?_⟩
  · obtain ⟨dst, h1, hW, hH, _, _, hp⟩ := Rotate90_spec img hwf
    refine ⟨dst, h1, pixelMultiset_eq_of_bij img dst (rotate90Src img.H img.W) ?_ ?_⟩
    · rw [hW, hH]; exact rotate90Src_bij img.W img.H
    · rw [hW, hH]; exact hp
  · obtain ⟨dst, h1, hW, hH, _, _, hp⟩ := Rotate180_spec img hwf
    refine ⟨dst, h1, pixelMultiset_eq_of_bij img dst (rotate180Src img.W img.H) ?_ ?_⟩
    · rw [hW, hH]; exact rotate180Src_bij img.W img.H
    · rw [hW, hH]; exact hp
  · obtain ⟨dst, h1, hW, hH, _, _, hp⟩ := Rotate270_spec img hwf
    refine ⟨dst, h1, pixelMultiset_eq_of_bij img dst (rotate270Src img.H img.W) ?_ ?_⟩
    · rw [hW, hH]; exact rotate270Src_bij img.W img.H
    · rw [hW, hH]; exact hp
  · obtain ⟨dst, h1, hW, hH, _, _, hp⟩ := FlipH_spec img hwf
    refine ⟨dst, h1, pixelMultiset_eq_of_bij img dst (flipHSrc img.W img.H) ?_ ?_⟩
    · rw [hW, hH]; exact flipHSrc_bij img.W img.H
    · rw [hW, hH]; exact hp
  · obtain ⟨dst, h1, hW, hH, _, _, hp⟩ := FlipV_spec img hwf
    refine ⟨dst, h1, pixelMultiset_eq_of_bij img dst (flipVSrc img.W img.H) ?_ ?_⟩
    · rw [hW, hH]; exact flipVSrc_bij img.W img.H
    · rw [hW, hH]; exact hp

/-- The multiset of pixel values of the fixture survives each of the five
transforms, by C7. -/
theorem C7_pixel_multiset_fixture :
    (∃ dst, Rotate90 fixture = some dst ∧ pixelMultiset dst = pixelMultiset fixture) ∧
    (∃ dst, Rotate180 fixture = some dst ∧ pixelMultiset dst = pixelMultiset fixture) ∧
    (∃ dst, Rotate270 fixture = some dst ∧ pixelMultiset dst = pixelMultiset fixture) ∧
    (∃ dst, FlipH fixture = some dst ∧ pixelMultiset dst = pixelMultiset fixture) ∧
    (∃ dst, FlipV fixture = some dst ∧ pixelMultiset dst = pixelMultiset fixture) :=
  C7_pixel_multiset_preserved fixture (by decide) (by decide)

/-! ## Claims C8 to C10: involutions and the rotation group -/

/-- Two quarter turns make a half turn. -/
theorem Rotate90_twice (img : NRGBA) (h : WellFormed img) :
    ∃ dst, (Rotate90 img).bind Rotate90 = some dst ∧ dst.W = img.W ∧ dst.H = img.H ∧
      dst.Stride = 4 * img.W ∧ dst.Pix.length = 4 * img.W * img.H ∧
      ∀ x y, x < img.W → y < img.H →
        pixelAt dst x y = pixelAt img (img.W - x - 1) (img.H - y - 1) := by
  obtain ⟨d1, e1, hW1, hH1, hS1, hL1, hp1⟩ := Rotate90_spec img h
  obtain ⟨d2, e2, hW2, hH2, hS2, hL2, hp2⟩ :=
    Rotate90_spec d1 (wellFormed_of_packed d1 _ _ hW1 hH1 hS1 hL1)
  rw [hW1, hH1] at hp2
  rw [hH1] at hW2 hS2
  rw [hW1] at hH2
  rw [hW1, hH1] at hL2
  refine ⟨d2, by rw [e1]; exact e2, hW2, hH2, hS2, ?_, ?_⟩
  · rw [hL2]
  · intro x y hx hy
    rw [hp2 x y hx hy, hp1 _ _ (by omega) hx]

/-- C8. Each of `Rotate180`, `FlipH` and `FlipV` is an involution: applied
twice to a source image satisfying the pixel buffer invariant, it returns a
buffer with the width and height of the image and the same four bytes at every
pixel coordinate. -/
theorem C8_involutions (img : NRGBA) (hStride : 4 * img.W ≤ img.Stride)
    (hLen : img.Stride * img.H ≤ img.Pix.length) :
    (∃ dst, (Rotate180 img).bind Rotate180 = some dst ∧ dst.W = img.W ∧ dst.H = img.H ∧
      ∀ x y, x < img.W → y < img.H → pixelAt dst x y = pixelAt img x y) ∧
    (∃ dst, (FlipH img).bind FlipH = some dst ∧ dst.W = img.W ∧ dst.H = img.H ∧
      ∀ x y, x < img.W → y < img.H → pixelAt dst x y = pixelAt img x y) ∧
    (∃ dst, (FlipV img).bind FlipV = some dst ∧ dst.W = img.W ∧ dst.H = img.H ∧
      ∀ x y, x < img.W → y < img.H → pixelAt dst x y = pixelAt img x y) := by
  have hwf : WellFormed img := ⟨hStride, hLen⟩
  refine ⟨?_, ?_, ?_⟩
  · obtain ⟨d1, e1, hW1, hH1, hS1, hL1, hp1⟩ := Rotate180_spec img hwf
    obtain ⟨d2, e2, hW2, hH2, _, _, hp2⟩ :=
      Rotate180_spec d1 (wellFormed_of_packed d1 _ _ hW1 hH1 hS1 hL1)
    rw [hW1, hH1] at hp2
    refine ⟨d2, by rw [e1]; exact e2, hW2.trans hW1, hH2.trans hH1, fun x y hx hy => ?_⟩
    rw [hp2 x y hx hy, hp1 _ _ (by omega) (by omega)]
    congr 1 <;> omega
  · obtain ⟨d1, e1, hW1, hH1, hS1, hL1, hp1⟩ := FlipH_spec img hwf
    obtain ⟨d2, e2, hW2, hH2, _, _, hp2⟩ :=
      FlipH_spec d1 (wellFormed_of_packed d1 _ _ hW1 hH1 hS1 hL1)
    rw [hW1, hH1] at hp2
    refine ⟨d2, by rw [e1]; exact e2, hW2.trans hW1, hH2.trans hH1, fun x y hx hy => ?_⟩
    rw [hp2 x y hx hy, hp1 _ _ (by omega) hy]
    congr 1; omega
  · obtain ⟨d1, e1, hW1, hH1, hS1, hL1, hp1⟩ := FlipV_spec img hwf
    obtain ⟨d2, e2, hW2, hH2, _, _, hp2⟩ :=
      FlipV_spec d1 (wellFormed_of_packed d1 _ _ hW1 hH1 hS1 hL1)
    rw [hW1, hH1] at hp2
    refine ⟨d2, by rw [e1]; exact e2, hW2.trans hW1, hH2.trans hH1, fun x y hx hy => ?_⟩
    rw [hp2 x y hx hy, hp1 _ _ hx (by omega)]
    congr 1; omega

/-- Each involution applied twice to the test fixture gives back its width,
height and pixels, by C8; the first application is the golden buffer of the
tests. -/
theorem C8_involutions_fixture :
    (Rotate180 goldenRotate180 = some fixture ∧ FlipH goldenFlipH = some fixture ∧
      FlipV goldenFlipV = some fixture) ∧
    ((∃ dst, (Rotate180 fixture).bind Rotate180 = some dst ∧ dst.W = fixture.W ∧
      dst.H = fixture.H ∧
      ∀ x y, x < fixture.W → y < fixture.H → pixelAt dst x y = pixelAt fixture x y) ∧
    (∃ dst, (FlipH fixture).bind FlipH = some dst ∧ dst.W = fixture.W ∧ dst.H = fixture.H ∧
      ∀ x y, x < fixture.W → y < fixture.H → pixelAt dst x y = pixelAt fixture x y) ∧
    (∃ dst, (FlipV fixture).bind FlipV = some dst ∧ dst.W = fixture.W ∧ dst.H = fixture.H ∧
      ∀ x y, x < fixture.W → y < fixture.H → pixelAt dst x y = pixelAt fixture x y)) :=
  ⟨by decide, C8_involutions fixture (by decide) (by decide)⟩

/-- C9. `Rotate90` undoes `Rotate270`: for a source image of any width `W` and
height `H` satisfying the pixel buffer invariant, `Rotate90(Rotate270(img))`
has width `W`, height `H` and the same four bytes as `img` at every pixel
coordinate. -/
theorem C9_Rotate90_undoes_Rotate270 (img : NRGBA) (hStride : 4 * img.W ≤ img.Stride)
    (hLen : img.Stride * img.H ≤ img.Pix.length) :
    ∃ dst, (Rotate270 img).bind Rotate90 = some dst ∧ dst.W = img.W ∧ dst.H = img.H ∧
      ∀ x y, x < img.W → y < img.H → pixelAt dst x y = pixelAt img x y := by
  obtain ⟨d1, e1, hW1, hH1, hS1, hL1, hp1⟩ := Rotate270_spec img ⟨hStride, hLen⟩
  obtain ⟨d2, e2, hW2, hH2, _, _, hp2⟩ :=
    Rotate90_spec d1 (wellFormed_of_packed d1 _ _ hW1 hH1 hS1 hL1)
  rw [hW1, hH1] at hp2
  refine ⟨d2, by rw [e1]; exact e2, hW2.trans hH1, hH2.trans hW1, fun x y hx hy => ?_⟩
  rw [hp2 x y hx hy, hp1 _ _ (by omega) hx]
  congr 1; omega

/-- The fixture: `Rotate90` takes the golden buffer of `TestRotate270` back to
the source of the test, and C9 holds of the source. -/
theorem C9_Rotate90_undoes_Rotate270_fixture :
    Rotate90 goldenRotate270 = some fixture ∧
    ∃ dst, (Rotate270 fixture).bind Rotate90 = some dst ∧ dst.W = fixture.W ∧
      dst.H = fixture.H ∧
      ∀ x y, x < fixture.W → y < fixture.H → pixelAt dst x y = pixelAt fixture x y :=
  ⟨by decide, C9_Rotate90_undoes_Rotate270 fixture (by decide) (by decide)⟩

/-- C10. Four quarter turns are the identity: for a source image of any width
`W` and height `H` satisfying the pixel buffer invariant,
`Rotate90(Rotate90(Rotate90(Rotate90(img))))` has width `W`, height `H` and the
same four bytes as `img` at every pixel coordinate. -/
theorem C10_four_quarter_turns (img : NRGBA) (hStride : 4 * img.W ≤ img.Stride)
    (hLen : img.Stride * img.H ≤ img.Pix.length) :
    ∃ dst, (((Rotate90 img).bind Rotate90).bind Rotate90).bind Rotate90 = some dst ∧
      dst.W = img.W ∧ dst.H = img.H ∧
      ∀ x y, x < img.W → y < img.H → pixelAt dst x y = pixelAt img x y := by
  obtain ⟨d2, e2, hW2, hH2, hS2, hL2, hp2⟩ := Rotate90_twice img ⟨hStride, hLen⟩
  obtain ⟨d4, e4, hW4, hH4, _, _, hp4⟩ :=
    Rotate90_twice d2 (wellFormed_of_packed d2 _ _ hW2 hH2 hS2 hL2)
  rw [hW2, hH2] at hp4
  refine ⟨d4, ?_, hW4.trans hW2, hH4.trans hH2, fun x y hx hy => ?_⟩
  · rw [e2, Option.some_bind, e4]
  · rw [hp4 x y hx hy, hp2 _ _ (by omega) (by omega)]
    congr 1 <;> omega

/-- Four quarter turns of the 2x3 test fixture give the fixture itself, and
C10 holds of it. -/
theorem C10_four_quarter_turns_fixture :
    (((Rotate90 fixture).bind Rotate90).bind Rotate90).bind Rotate90 = some fixture ∧
    ∃ dst, (((Rotate90 fixture).bind Rotate90).bind Rotate90).bind Rotate90 = some dst ∧
      dst.W = fixture.W ∧ dst.H = fixture.H ∧
      ∀ x y, x < fixture.W → y < fixture.H → pixelAt dst x y = pixelAt fixture x y :=
  ⟨by decide, C10_four_quarter_turns fixture (by decide) (by decide)⟩


/-! ## Claim C11: the result does not depend on the partition of the rows -/

theorem Rotate90On_eq_rigidOn (parts : List (Nat × Nat)) (img : NRGBA) :
    Rotate90On parts img = rigidOn rotate90Src img.H img.W img parts := rfl

theorem Rotate180On_eq_rigidOn (parts : List (Nat × Nat)) (img : NRGBA) :
    Rotate180On parts img = rigidOn rotate180Src img.W img.H img parts := rfl

theorem Rotate270On_eq_rigidOn (parts : List (Nat × Nat)) (img : NRGBA) :
    Rotate270On parts img = rigidOn rotate270Src img.H img.W img parts := rfl

theorem FlipHOn_eq_rigidOn (parts : List (Nat × Nat)) (img : NRGBA) :
    FlipHOn parts img = rigidOn flipHSrc img.W img.H img parts := rfl

theorem FlipVOn_eq_rigidOn (parts : List (Nat × Nat)) (img : NRGBA) :
    FlipVOn parts img = rigidOn flipVSrc img.W img.H img parts := rfl

theorem slice4_getElem? (p : List Nat) (off r : Nat) (hr : r < 4) :
    (slice4 p off)[r]? = p[off + r]? := by
  unfold slice4
  rw [List.getElem?_take, if_pos hr, List.getElem?_drop]

theorem slice4_replicate_zero (n off : Nat) (h : off + 4 ≤ n) :
    slice4 (List.replicate n 0) off = [0, 0, 0, 0] := by
  unfold slice4
  rw [List.drop_replicate, List.take_replicate]
  have : min 4 (n - off) = 4 := by omega
  rw [this]
  rfl

theorem Written_congr (f : Nat → Nat → Nat → Nat → Nat × Nat) (dstW dstH : Nat) (src : NRGBA)
    (R R' : Nat → Nat → Prop) (dst : NRGBA)
    (hR : ∀ dx dy, dx < dstW → dy < dstH → (R dx dy ↔ R' dx dy))
    (h : Written f dstW dstH src R dst) : Written f dstW dstH src R' dst := by
  obtain ⟨hW, hH, hS, hL, hP⟩ := h
  refine ⟨hW, hH, hS, hL, fun dx dy hx hy => ?_⟩
  obtain ⟨h1, h2⟩ := hP dx dy hx hy
  have e := hR dx dy hx hy
  exact ⟨fun h' => h1 (e.2 h'), fun h' => h2 (fun hr => h' (e.1 hr))⟩

theorem flat_index_inj {w x y x' y' : Nat} (hx : x < w) (hx' : x' < w)
    (h : y * w + x = y' * w + x') : x = x' ∧ y = y' := by
  have e1 : (y * w + x) % w = x := by
    rw [Nat.add_comm, Nat.add_mul_mod_self_right]; exact Nat.mod_eq_of_lt hx
  have e2 : (y' * w + x') % w = x' := by
    rw [Nat.add_comm, Nat.add_mul_mod_self_right]; exact Nat.mod_eq_of_lt hx'
  have e3 : (y * w + x) / w = y := by
    rw [Nat.add_comm, Nat.add_mul_div_right _ _ (by omega), Nat.div_eq_of_lt hx]; omega
  have e4 : (y' * w + x') / w = y' := by
    rw [Nat.add_comm, Nat.add_mul_div_right _ _ (by omega), Nat.div_eq_of_lt hx']; omega
  rw [h] at e1 e3
  exact ⟨by omega, by omega⟩

theorem Written_step (f : Nat → Nat → Nat → Nat → Nat × Nat) (dstW dstH : Nat) (src : NRGBA)
    (hsrc : WellFormed src)
    (hf : ∀ dx dy, dx < dstW → dy < dstH →
      (f dstW dstH dx dy).1 < src.W ∧ (f dstW dstH dx dy).2 < src.H)
    (R : Nat → Nat → Prop) (x y : Nat) (hx : x < dstW) (hy : y < dstH) (dst : NRGBA)
    (h : Written f dstW dstH src R dst) :
    ∃ dst', copyPix dst (y * dst.Stride + x * 4) src
        ((f dstW dstH x y).2 * src.Stride + (f dstW dstH x y).1 * 4) = some dst' ∧
      Written f dstW dstH src (fun dx dy => R dx dy ∨ (dy = y ∧ dx = x)) dst' := by
  obtain ⟨hW, hH, hS, hL, hP⟩ := h
  obtain ⟨hs1, hs2⟩ := hsrc
  obtain ⟨hfx, hfy⟩ := hf x y hx hy
  have hk := flat_index_lt hx hy
  have hdoff : y * dst.Stride + x * 4 = 4 * (y * dstW + x) := by rw [hS]; ring
  have hdb : y * dst.Stride + x * 4 + 4 ≤ dst.Pix.length := by
    rw [hdoff, hL, Nat.mul_assoc]; omega
  have hsb : (f dstW dstH x y).2 * src.Stride + (f dstW dstH x y).1 * 4 + 4 ≤ src.Pix.length := by
    have h1 := flat_index_lt (w := src.Stride) (h := src.H) (x := (f dstW dstH x y).1 * 4 + 3)
      (y := (f dstW dstH x y).2) (by omega) hfy
    omega
  have hb := slice4_length src.Pix _ hsb
  refine ⟨{ dst with Pix := (dst.Pix.take (y * dst.Stride + x * 4) ++
      slice4 src.Pix ((f dstW dstH x y).2 * src.Stride + (f dstW dstH x y).1 * 4) ++
      dst.Pix.drop (y * dst.Stride + x * 4 + 4)) }, ?_, hW, hH, hS, ?_, ?_⟩
  · simp only [copyPix, hdb, hsb, and_self, if_true]
  · show (_ ++ _ ++ _ : List Nat).length = _
    rw [written_length _ _ _ hdb hb, hL]
  · intro dx dy hdx hdy
    have hoff : dy * dst.Stride + dx * 4 = 4 * (dy * dstW + dx) := by rw [hS]; ring
    show (R dx dy ∨ (dy = y ∧ dx = x) → slice4 (_ ++ _ ++ _) (dy * dst.Stride + dx * 4) = _) ∧
      (¬ (R dx dy ∨ (dy = y ∧ dx = x)) → slice4 (_ ++ _ ++ _) (dy * dst.Stride + dx * 4) = _)
    by_cases heq : dy * dstW + dx = y * dstW + x
    · obtain ⟨rfl, rfl⟩ := flat_index_inj hdx hx heq
      rw [slice4_written_same _ _ _ hdb hb]
      exact ⟨fun _ => rfl, fun hn => absurd (Or.inr ⟨rfl, rfl⟩) hn⟩
    · rw [slice4_written_other _ _ _ _ hdb hb (by rw [hoff, hdoff]; omega)]
      obtain ⟨h1, h2⟩ := hP dx dy hdx hdy
      refine ⟨fun hr => ?_, fun hn => h2 (fun hr => hn (Or.inl hr))⟩
      rcases hr with hr | ⟨rfl, rfl⟩
      · exact h1 hr
      · exact absurd rfl heq

theorem Written_row (f : Nat → Nat → Nat → Nat → Nat × Nat) (dstW dstH : Nat) (src : NRGBA)
    (hsrc : WellFormed src)
    (hf : ∀ dx dy, dx < dstW → dy < dstH →
      (f dstW dstH dx dy).1 < src.W ∧ (f dstW dstH dx dy).2 < src.H)
    (R : Nat → Nat → Prop) (y : Nat) (hy : y < dstH) (dst : NRGBA)
    (h : Written f dstW dstH src R dst) :
    ∃ dst', forLoop 0 dstW (fun dstX dst =>
        copyPix dst (y * dst.Stride + dstX * 4) src
          ((f dstW dstH dstX y).2 * src.Stride + (f dstW dstH dstX y).1 * 4)) dst = some dst' ∧
      Written f dstW dstH src (fun dx dy => R dx dy ∨ dy = y) dst' := by
  have inner := forLoop_inv
    (fun x d => Written f dstW dstH src (fun dx dy => R dx dy ∨ (dy = y ∧ dx < x)) d)
    (fun dstX dst => copyPix dst (y * dst.Stride + dstX * 4) src
      ((f dstW dstH dstX y).2 * src.Stride + (f dstW dstH dstX y).1 * 4))
    dstW dst
    (Written_congr f dstW dstH src _ _ dst (fun dx dy _ _ => by
      constructor
      · intro hr; exact Or.inl hr
      · rintro (hr | ⟨_, hlt⟩)
        · exact hr
        · exact absurd hlt (Nat.not_lt_zero dx)) h)
    (fun x t hx ht => by
      obtain ⟨t', e, hw⟩ := Written_step f dstW dstH src hsrc hf _ x y hx hy t ht
      refine ⟨t', e, Written_congr f dstW dstH src _ _ t' (fun dx dy _ _ => ?_) hw⟩
      constructor
      · rintro ((hr | ⟨h1, h2⟩) | ⟨h1, h2⟩)
        · exact Or.inl hr
        · exact Or.inr ⟨h1, by omega⟩
        · exact Or.inr ⟨h1, by omega⟩
      · rintro (hr | ⟨h1, h2⟩)
        · exact Or.inl (Or.inl hr)
        · by_cases hc : dx = x
          · exact Or.inr ⟨h1, hc⟩
          · exact Or.inl (Or.inr ⟨h1, by omega⟩))
  obtain ⟨t, e, hw⟩ := inner
  refine ⟨t, e, Written_congr f dstW dstH src _ _ t (fun dx dy hdx _ => ?_) hw⟩
  constructor
  · rintro (hr | ⟨h1, _⟩)
    · exact Or.inl hr
    · exact Or.inr h1
  · rintro (hr | h1)
    · exact Or.inl hr
    · exact Or.inr ⟨h1, hdx⟩

theorem Written_part (f : Nat → Nat → Nat → Nat → Nat × Nat) (dstW dstH : Nat) (src : NRGBA)
    (hsrc : WellFormed src)
    (hf : ∀ dx dy, dx < dstW → dy < dstH →
      (f dstW dstH dx dy).1 < src.W ∧ (f dstW dstH dx dy).2 < src.H)
    (R : Nat → Nat → Prop) (a b : Nat) (hb : b ≤ dstH) (dst : NRGBA)
    (h : Written f dstW dstH src R dst) :
    ∃ dst', forLoop a b (fun dstY dst => forLoop 0 dstW (fun dstX dst =>
        copyPix dst (dstY * dst.Stride + dstX * 4) src
          ((f dstW dstH dstX dstY).2 * src.Stride + (f dstW dstH dstX dstY).1 * 4)) dst) dst
          = some dst' ∧
      Written f dstW dstH src (fun dx dy => R dx dy ∨ (a ≤ dy ∧ dy < b)) dst' := by
  have outer := loopFrom_inv
    (fun y d => Written f dstW dstH src (fun dx dy => R dx dy ∨ (a ≤ dy ∧ dy < y)) d)
    (fun dstY dst => forLoop 0 dstW (fun dstX dst =>
        copyPix dst (dstY * dst.Stride + dstX * 4) src
          ((f dstW dstH dstX dstY).2 * src.Stride + (f dstW dstH dstX dstY).1 * 4)) dst)
    (b - a) a dst
    (Written_congr f dstW dstH src _ _ dst (fun dx dy _ _ => by
      constructor
      · intro hr; exact Or.inl hr
      · rintro (hr | ⟨h1, h2⟩)
        · exact hr
        · omega) h)
    (fun y t h1 h2 ht => by
      obtain ⟨t', e, hw⟩ := Written_row f dstW dstH src hsrc hf _ y (by omega) t ht
      refine ⟨t', e, Written_congr f dstW dstH src _ _ t' (fun dx dy _ _ => ?_) hw⟩
      constructor
      · rintro ((hr | ⟨h3, h4⟩) | h3)
        · exact Or.inl hr
        · exact Or.inr ⟨h3, by omega⟩
        · exact Or.inr ⟨by omega, by omega⟩
      · rintro (hr | ⟨h3, h4⟩)
        · exact Or.inl (Or.inl hr)
        · by_cases hc : dy = y
          · exact Or.inr hc
          · exact Or.inl (Or.inr ⟨h3, by omega⟩))
  obtain ⟨t, e, hw⟩ := outer
  refine ⟨t, e, Written_congr f dstW dstH src _ _ t (fun dx dy _ _ => ?_) hw⟩
  constructor
  · rintro (hr | ⟨h1, h2⟩)
    · exact Or.inl hr
    · exact Or.inr ⟨h1, by omega⟩
  · rintro (hr | ⟨h1, h2⟩)
    · exact Or.inl hr
    · exact Or.inr ⟨h1, by omega⟩

theorem Written_parts (f : Nat → Nat → Nat → Nat → Nat × Nat) (dstW dstH : Nat) (src : NRGBA)
    (hsrc : WellFormed src)
    (hf : ∀ dx dy, dx < dstW → dy < dstH →
      (f dstW dstH dx dy).1 < src.W ∧ (f dstW dstH dx dy).2 < src.H)
    (parts : List (Nat × Nat)) :
    ∀ (R : Nat → Nat → Prop) (dst : NRGBA), (∀ p ∈ parts, p.2 ≤ dstH) →
      Written f dstW dstH src R dst →
      ∃ dst', parallelOn parts (fun partStart partEnd dst =>
          forLoop partStart partEnd (fun dstY dst => forLoop 0 dstW (fun dstX dst =>
            copyPix dst (dstY * dst.Stride + dstX * 4) src
              ((f dstW dstH dstX dstY).2 * src.Stride + (f dstW dstH dstX dstY).1 * 4))
            dst) dst) dst = some dst' ∧
        Written f dstW dstH src
          (fun dx dy => R dx dy ∨ ∃ p ∈ parts, p.1 ≤ dy ∧ dy < p.2) dst' := by
  induction parts with
  | nil =>
    intro R dst _ h
    refine ⟨dst, rfl, Written_congr f dstW dstH src _ _ dst (fun dx dy _ _ => ?_) h⟩
    constructor
    · intro hr; exact Or.inl hr
    · rintro (hr | ⟨p, hp, _⟩)
      · exact hr
      · exact absurd hp (List.not_mem_nil p)
  | cons q qs ih =>
    intro R dst hq h
    obtain ⟨t, e, hw⟩ := Written_part f dstW dstH src hsrc hf R q.1 q.2
      (hq q (List.mem_cons_self q qs)) dst h
    obtain ⟨t', e', hw'⟩ := ih _ t (fun p hp => hq p (List.mem_cons_of_mem q hp)) hw
    refine ⟨t', ?_, Written_congr f dstW dstH src _ _ t' (fun dx dy _ _ => ?_) hw'⟩
    · simp only [parallelOn, e, Option.some_bind]
      exact e'
    · constructor
      · rintro ((hr | h1) | ⟨p, hp, h2⟩)
        · exact Or.inl hr
        · exact Or.inr ⟨q, List.mem_cons_self q qs, h1⟩
        · exact Or.inr ⟨p, List.mem_cons_of_mem q hp, h2⟩
      · rintro (hr | ⟨p, hp, h2⟩)
        · exact Or.inl (Or.inl hr)
        · rcases List.mem_cons.1 hp with rfl | hp'
          · exact Or.inl (Or.inr h2)
          · exact Or.inr ⟨p, hp', h2⟩

theorem Written_new (f : Nat → Nat → Nat → Nat → Nat × Nat) (dstW dstH : Nat) (src : NRGBA) :
    Written f dstW dstH src (fun _ _ => False) (NewNRGBA dstW dstH) := by
  refine ⟨rfl, rfl, rfl, by simp [NewNRGBA], fun dx dy hx hy => ⟨fun h => absurd h id, fun _ => ?_⟩⟩
  have hk := flat_index_lt hx hy
  show slice4 (List.replicate (4 * dstW * dstH) 0) (dy * (4 * dstW) + dx * 4) = _
  apply slice4_replicate_zero
  have e : dy * (4 * dstW) + dx * 4 = 4 * (dy * dstW + dx) := by ring
  rw [e, Nat.mul_assoc]; omega

theorem rigidOn_spec (f : Nat → Nat → Nat → Nat → Nat × Nat) (dstW dstH : Nat) (src : NRGBA)
    (hsrc : WellFormed src)
    (hf : ∀ dx dy, dx < dstW → dy < dstH →
      (f dstW dstH dx dy).1 < src.W ∧ (f dstW dstH dx dy).2 < src.H)
    (parts : List (Nat × Nat)) (hparts : ∀ p ∈ parts, p.2 ≤ dstH) :
    ∃ dst, rigidOn f dstW dstH src parts = some dst ∧
      Written f dstW dstH src (fun _ dy => ∃ p ∈ parts, p.1 ≤ dy ∧ dy < p.2) dst := by
  obtain ⟨t, e, hw⟩ := Written_parts f dstW dstH src hsrc hf parts _ _ hparts
    (Written_new f dstW dstH src)
  refine ⟨t, e, Written_congr f dstW dstH src _ _ t (fun dx dy _ _ => ?_) hw⟩
  constructor
  · rintro (hr | h1)
    · exact absurd hr id
    · exact h1
  · intro h1; exact Or.inr h1

theorem IsPartition_covered (n : Nat) (parts : List (Nat × Nat)) (h : IsPartition n parts)
    (i : Nat) (hi : i < n) : ∃ p ∈ parts, p.1 ≤ i ∧ i < p.2 := by
  have h1 := h.2 i hi
  have hpos : 0 < (parts.filter (fun p => decide (p.1 ≤ i ∧ i < p.2))).length := by omega
  obtain ⟨p, hp⟩ := List.exists_mem_of_length_pos hpos
  rw [List.mem_filter] at hp
  exact ⟨p, hp.1, by simpa using hp.2⟩

/-- Two packed buffers of the same size with the same pixels are equal. -/
theorem NRGBA_eq_of_pixels (d1 d2 : NRGBA) (w h : Nat)
    (hW1 : d1.W = w) (hH1 : d1.H = h) (hS1 : d1.Stride = 4 * w)
    (hL1 : d1.Pix.length = 4 * w * h)
    (hW2 : d2.W = w) (hH2 : d2.H = h) (hS2 : d2.Stride = 4 * w)
    (hL2 : d2.Pix.length = 4 * w * h)
    (hp : ∀ x y, x < w → y < h → pixelAt d1 x y = pixelAt d2 x y) : d1 = d2 := by
  have hpix : d1.Pix = d2.Pix := by
    apply List.ext_getElem?
    intro i
    by_cases hi : i < 4 * w * h
    · have hw : 0 < w := by
        rcases Nat.eq_zero_or_pos w with h0 | h0
        · rw [h0] at hi; simp at hi
        · exact h0
      have hk : i / 4 < w * h := by
        rw [Nat.mul_assoc] at hi
        exact Nat.div_lt_of_lt_mul hi
      have hy : i / 4 / w < h := Nat.div_lt_of_lt_mul hk
      have hx : i / 4 % w < w := Nat.mod_lt _ hw
      have e := hp (i / 4 % w) (i / 4 / w) hx hy
      unfold pixelAt at e
      have e' := congrArg (fun l => l[i % 4]?) e
      simp only at e'
      rw [slice4_getElem? _ _ _ (Nat.mod_lt _ (by omega)),
        slice4_getElem? _ _ _ (Nat.mod_lt _ (by omega)), hS1, hS2] at e'
      have hidx : i / 4 / w * (4 * w) + i / 4 % w * 4 + i % 4 = i := by
        have h1 := Nat.div_add_mod (i / 4) w
        have h2 := Nat.div_add_mod i 4
        have h3 : i / 4 / w * (4 * w) = 4 * (w * (i / 4 / w)) := by ring
        omega
      rw [hidx] at e'
      exact e'
    · rw [List.getElem?_eq_none (by omega), List.getElem?_eq_none (by omega)]
  cases d1
  cases d2
  simp only at hW1 hH1 hS1 hW2 hH2 hS2 hpix
  subst hW1 hH1 hS1 hpix
  simp [hW2, hH2, hS2]

theorem IsPartition_single (n : Nat) : IsPartition n [(0, n)] := by
  refine ⟨fun p hp => ?_, fun i hi => ?_⟩
  · rw [List.mem_singleton] at hp
    subst hp
    exact ⟨Nat.zero_le n, Nat.le_refl n⟩
  · simp [List.filter, hi]

theorem rigid_scheduleIndependent (f : Nat → Nat → Nat → Nat → Nat × Nat) (dstW dstH : Nat)
    (src : NRGBA) (hsrc : WellFormed src)
    (hf : ∀ dx dy, dx < dstW → dy < dstH →
      (f dstW dstH dx dy).1 < src.W ∧ (f dstW dstH dx dy).2 < src.H)
    (T : NRGBA → Option NRGBA) (TOn : List (Nat × Nat) → NRGBA → Option NRGBA)
    (hT : T src = rigid f dstW dstH src)
    (hTOn : ∀ parts, TOn parts src = rigidOn f dstW dstH src parts) :
    ScheduleIndependent T TOn dstW dstH src := by
  obtain ⟨dst, e, hW, hH, hS, hL, hP⟩ := rigid_spec f dstW dstH src hsrc hf
  have key : ∀ parts, IsPartition dstH parts → TOn parts src = some dst := by
    intro parts hparts
    obtain ⟨d, e', hW', hH', hS', hL', hP'⟩ :=
      rigidOn_spec f dstW dstH src hsrc hf parts (fun p hp => (hparts.1 p hp).2)
    rw [hTOn, e']
    congr 1
    refine NRGBA_eq_of_pixels d dst dstW dstH hW' hH' hS' hL' hW hH hS hL (fun x y hx hy => ?_)
    rw [(hP' x y hx hy).1 (IsPartition_covered dstH parts hparts y hy), hP x y hx hy]
  refine ⟨dst, by rw [hT]; exact e, key _ (IsPartition_single dstH), key, fun a b _ hb => ?_⟩
  obtain ⟨d, e', _, _, _, _, hP'⟩ :=
    rigidOn_spec f dstW dstH src hsrc hf [(a, b)] (fun p hp => by
      rw [List.mem_singleton] at hp; subst hp; exact hb)
  refine ⟨d, by rw [hTOn]; exact e', fun dx dy hx hy => ⟨fun hin => ?_, fun hout => ?_⟩⟩
  · rw [(hP' dx dy hx hy).1 ⟨(a, b), List.mem_singleton.2 rfl, hin⟩, hP dx dy hx hy]
  · refine (hP' dx dy hx hy).2 ?_
    rintro ⟨p, hp, h1⟩
    rw [List.mem_singleton] at hp
    subst hp
    exact hout h1

/-- C11. For each of `Rotate90`, `Rotate180`, `Rotate270`, `FlipH` and `FlipV`
and every source buffer satisfying the pixel buffer invariant, the transform
returns a destination, every run of its row loop on sub-ranges that are
disjoint and together cover the destination rows `[0, dstH)`, processed in any
order, returns that same destination (the single sub-range of one worker
included), and a sub-range writes only the rows it owns. -/
theorem C11_partition_independent (img : NRGBA) (hStride : 4 * img.W ≤ img.Stride)
    (hLen : img.Stride * img.H ≤ img.Pix.length) :
    ScheduleIndependent Rotate90 Rotate90On img.H img.W img ∧
    ScheduleIndependent Rotate180 Rotate180On img.W img.H img ∧
    ScheduleIndependent Rotate270 Rotate270On img.H img.W img ∧
    ScheduleIndependent FlipH FlipHOn img.W img.H img ∧
    ScheduleIndependent FlipV FlipVOn img.W img.H img := by
  have hwf : WellFormed img := ⟨hStride, hLen⟩
  refine ⟨?_, ?_, ?_, ?_, ?_⟩
  · exact rigid_scheduleIndependent rotate90Src img.H img.W img hwf
      (fun dx dy hx hy => ⟨by simp only [rotate90Src]; omega, hx⟩) _ _ rfl (fun _ => rfl)
  · exact rigid_scheduleIndependent rotate180Src img.W img.H img hwf
      (fun dx dy hx hy => ⟨by simp only [rotate180Src]; omega,
        by simp only [rotate180Src]; omega⟩) _ _ rfl (fun _ => rfl)
  · exact rigid_scheduleIndependent rotate270Src img.H img.W img hwf
      (fun dx dy hx hy => ⟨hy, by simp only [rotate270Src]; omega⟩) _ _ rfl (fun _ => rfl)
  · exact rigid_scheduleIndependent flipHSrc img.W img.H img hwf
      (fun dx dy hx hy => ⟨by simp only [flipHSrc]; omega, hy⟩) _ _ rfl (fun _ => rfl)
  · exact rigid_scheduleIndependent flipVSrc img.W img.H img hwf
      (fun dx dy hx hy => ⟨hx, by simp only [flipVSrc]; omega⟩) _ _ rfl (fun _ => rfl)

/-- The test fixture processed as two or three sub-ranges out of order gives
the golden buffers of the tests, and C11 holds of it. -/
theorem C11_partition_independent_fixture :
    (Rotate90On [(1, 2), (0, 1)] fixture = some goldenRotate90 ∧
      Rotate180On [(2, 3), (0, 1), (1, 2)] fixture = some goldenRotate180 ∧
      Rotate270On [(1, 2), (0, 0), (0, 1)] fixture = some goldenRotate270 ∧
      FlipHOn [(1, 3), (0, 1)] fixture = some goldenFlipH ∧
      FlipVOn [(0, 2), (2, 3)] fixture = some goldenFlipV) ∧
    (ScheduleIndependent Rotate90 Rotate90On fixture.H fixture.W fixture ∧
      ScheduleIndependent Rotate180 Rotate180On fixture.W fixture.H fixture ∧
      ScheduleIndependent Rotate270 Rotate270On fixture.H fixture.W fixture ∧
      ScheduleIndependent FlipH FlipHOn fixture.W fixture.H fixture ∧
      ScheduleIndependent FlipV FlipVOn fixture.W fixture.H fixture) :=
  ⟨by decide, C11_partition_independent fixture (by decide) (by decide)⟩

/-! ## Claim C12: the coordinate formulas of the two quarter turns -/

/-- C12, as stated, fails on the 2x3 test fixture: with `W = 2` and `H = 3` the
pixel `(0, 0)` of `Rotate90` is not the source pixel `(H - 0 - 1, 0)`, whose
column is not even a column of the source, and the pixel `(0, 0)` of
`Rotate270` is not the source pixel `(0, W - 0 - 1)`. -/
theorem C12_stated_formulas_fail :
    Rotate90 fixture = some goldenRotate90 ∧
    pixelAt goldenRotate90 0 0 ≠ pixelAt fixture (fixture.H - 0 - 1) 0 ∧
    ¬ (fixture.H - 0 - 1 < fixture.W) ∧
    rotate90Src fixture.H fixture.W 0 0 ≠ (fixture.H - 0 - 1, 0) ∧
    Rotate270 fixture = some goldenRotate270 ∧
    pixelAt goldenRotate270 0 0 ≠ pixelAt fixture 0 (fixture.W - 0 - 1) ∧
    rotate270Src fixture.H fixture.W 0 0 ≠ (0, fixture.W - 0 - 1) := by
  decide

/-- C12, amended. With `W` and `H` the width and height of a source buffer
satisfying the pixel buffer invariant, for every destination coordinate
`(dx, dy)` of the `H x W` destination, `Rotate90` copies destination pixel
`(dx, dy)` from source pixel `(W - dy - 1, dx)` and `Rotate270` copies it from
source pixel `(dy, H - dx - 1)`; these are the coordinates the loop bodies
compute. -/
theorem C12_quarter_turn_formulas (img : NRGBA) (hStride : 4 * img.W ≤ img.Stride)
    (hLen : img.Stride * img.H ≤ img.Pix.length) :
    (∃ dst, Rotate90 img = some dst ∧ dst.W = img.H ∧ dst.H = img.W ∧
      ∀ dx dy, dx < img.H → dy < img.W →
        rotate90Src img.H img.W dx dy = (img.W - dy - 1, dx) ∧
        pixelAt dst dx dy = pixelAt img (img.W - dy - 1) dx) ∧
    (∃ dst, Rotate270 img = some dst ∧ dst.W = img.H ∧ dst.H = img.W ∧
      ∀ dx dy, dx < img.H → dy < img.W →
        rotate270Src img.H img.W dx dy = (dy, img.H - dx - 1) ∧
        pixelAt dst dx dy = pixelAt img dy (img.H - dx - 1)) := by
  obtain ⟨d1, e1, hW1, hH1, _, _, hp1⟩ := Rotate90_spec img ⟨hStride, hLen⟩
  obtain ⟨d2, e2, hW2, hH2, _, _, hp2⟩ := Rotate270_spec img ⟨hStride, hLen⟩
  exact ⟨⟨d1, e1, hW1, hH1, fun dx dy hx hy => ⟨rfl, hp1 dx dy hx hy⟩⟩,
    ⟨d2, e2, hW2, hH2, fun dx dy hx hy => ⟨rfl, hp2 dx dy hx hy⟩⟩⟩

/-- The amended formulas of C12 on the 2x3 test fixture. -/
theorem C12_quarter_turn_formulas_fixture :
    (∃ dst, Rotate90 fixture = some dst ∧ dst.W = fixture.H ∧ dst.H = fixture.W ∧
      ∀ dx dy, dx < fixture.H → dy < fixture.W →
        rotate90Src fixture.H fixture.W dx dy = (fixture.W - dy - 1, dx) ∧
        pixelAt dst dx dy = pixelAt fixture (fixture.W - dy - 1) dx) ∧
    (∃ dst, Rotate270 fixture = some dst ∧ dst.W = fixture.H ∧ dst.H = fixture.W ∧
      ∀ dx dy, dx < fixture.H → dy < fixture.W →
        rotate270Src fixture.H fixture.W dx dy = (dy, fixture.H - dx - 1) ∧
        pixelAt dst dx dy = pixelAt fixture dy (fixture.H - dx - 1)) :=
  C12_quarter_turn_formulas fixture (by decide) (by decide)

/-! ## Claim C16: every byte range of the rigid transforms is in bounds -/

theorem rigid_accessesInBounds (f : Nat → Nat → Nat → Nat → Nat × Nat) (dstW dstH : Nat)
    (src : NRGBA) (hsrc : WellFormed src)
    (hf : ∀ dx dy, dx < dstW → dy < dstH →
      (f dstW dstH dx dy).1 < src.W ∧ (f dstW dstH dx dy).2 < src.H)
    (T : NRGBA → Option NRGBA) (hT : T src = rigid f dstW dstH src) :
    AccessesInBounds T f dstW dstH src := by
  obtain ⟨dst, e, _, _, _, hL, _⟩ := rigid_spec f dstW dstH src hsrc hf
  have hlen : (NewNRGBA dstW dstH).Pix.length = 4 * dstW * dstH := by simp [NewNRGBA]
  refine ⟨hT, rfl, hlen, fun x y hx hy => ⟨?_, ?_⟩, dst, by rw [hT]; exact e, hL⟩
  · obtain ⟨hs1, hs2⟩ := hsrc
    obtain ⟨hfx, hfy⟩ := hf x y hx hy
    have h1 := flat_index_lt (w := src.Stride) (h := src.H) (x := (f dstW dstH x y).1 * 4 + 3)
      (y := (f dstW dstH x y).2) (by omega) hfy
    omega
  · have hk := flat_index_lt hx hy
    rw [hlen]
    show y * (4 * dstW) + x * 4 + 4 ≤ _
    have e1 : y * (4 * dstW) + x * 4 = 4 * (y * dstW + x) := by ring
    rw [e1, Nat.mul_assoc]; omega

/-- C16. For each of `Rotate90`, `Rotate180`, `Rotate270`, `FlipH` and `FlipV`
and every source buffer satisfying the pixel buffer invariant, every four-byte
range `[srcY*stride + 4*srcX, +4)` read from the source and every four-byte
range `[dstY*dstStride + 4*dstX, +4)` written to the freshly allocated
destination (stride `4*dstW`, length `4*dstW*dstH`) lies inside its byte
array, and the transform returns a buffer. -/
theorem C16_rigid_accesses_in_bounds (img : NRGBA) (hStride : 4 * img.W ≤ img.Stride)
    (hLen : img.Stride * img.H ≤ img.Pix.length) :
    AccessesInBounds Rotate90 rotate90Src img.H img.W img ∧
    AccessesInBounds Rotate180 rotate180Src img.W img.H img ∧
    AccessesInBounds Rotate270 rotate270Src img.H img.W img ∧
    AccessesInBounds FlipH flipHSrc img.W img.H img ∧
    AccessesInBounds FlipV flipVSrc img.W img.H img := by
  have hwf : WellFormed img := ⟨hStride, hLen⟩
  refine ⟨?_, ?_, ?_, ?_, ?_⟩
  · exact rigid_accessesInBounds rotate90Src img.H img.W img hwf
      (fun dx dy hx hy => ⟨by simp only [rotate90Src]; omega, hx⟩) _ rfl
  · exact rigid_accessesInBounds rotate180Src img.W img.H img hwf
      (fun dx dy hx hy => ⟨by simp only [rotate180Src]; omega,
        by simp only [rotate180Src]; omega⟩) _ rfl
  · exact rigid_accessesInBounds rotate270Src img.H img.W img hwf
      (fun dx dy hx hy => ⟨hy, by simp only [rotate270Src]; omega⟩) _ rfl
  · exact rigid_accessesInBounds flipHSrc img.W img.H img hwf
      (fun dx dy hx hy => ⟨by simp only [flipHSrc]; omega, hy⟩) _ rfl
  · exact rigid_accessesInBounds flipVSrc img.W img.H img hwf
      (fun dx dy hx hy => ⟨hx, by simp only [flipVSrc]; omega⟩) _ rfl

/-- The byte ranges of the five transforms on the 2x3 test fixture are in
bounds, by C16. -/
theorem C16_rigid_accesses_fixture :
    AccessesInBounds Rotate90 rotate90Src fixture.H fixture.W fixture ∧
    AccessesInBounds Rotate180 rotate180Src fixture.W fixture.H fixture ∧
    AccessesInBounds Rotate270 rotate270Src fixture.H fixture.W fixture ∧
    AccessesInBounds FlipH flipHSrc fixture.W fixture.H fixture ∧
    AccessesInBounds FlipV flipVSrc fixture.W fixture.H fixture :=
  C16_rigid_accesses_in_bounds fixture (by decide) (by decide)

/-! ## The skew transform: the loop and its body -/

set_option maxRecDepth 100000

theorem skewBody_unfold (src : NRGBA) (xOffset yOffset : Int) (dstPixel : Nat)
    (dst : ImageNRGBA) :
    skewBody src xOffset yOffset dstPixel dst =
      (readByte src.Pix (src.PixOffset
        (skewSrc src.W src.H xOffset yOffset
          (skewDst ((src.H : Int) + yOffset) dstPixel).1
          (skewDst ((src.H : Int) + yOffset) dstPixel).2).1
        (skewSrc src.W src.H xOffset yOffset
          (skewDst ((src.H : Int) + yOffset) dstPixel).1
          (skewDst ((src.H : Int) + yOffset) dstPixel).2).2 + 0)).bind fun r =>
      (readByte src.Pix (src.PixOffset
        (skewSrc src.W src.H xOffset yOffset
          (skewDst ((src.H : Int) + yOffset) dstPixel).1
          (skewDst ((src.H : Int) + yOffset) dstPixel).2).1
        (skewSrc src.W src.H xOffset yOffset
          (skewDst ((src.H : Int) + yOffset) dstPixel).1
          (skewDst ((src.H : Int) + yOffset) dstPixel).2).2 + 1)).bind fun g =>
      (readByte src.Pix (src.PixOffset
        (skewSrc src.W src.H xOffset yOffset
          (skewDst ((src.H : Int) + yOffset) dstPixel).1
          (skewDst ((src.H : Int) + yOffset) dstPixel).2).1
        (skewSrc src.W src.H xOffset yOffset
          (skewDst ((src.H : Int) + yOffset) dstPixel).1
          (skewDst ((src.H : Int) + yOffset) dstPixel).2).2 + 2)).bind fun b =>
      (readByte src.Pix (src.PixOffset
        (skewSrc src.W src.H xOffset yOffset
          (skewDst ((src.H : Int) + yOffset) dstPixel).1
          (skewDst ((src.H : Int) + yOffset) dstPixel).2).1
        (skewSrc src.W src.H xOffset yOffset
          (skewDst ((src.H : Int) + yOffset) dstPixel).1
          (skewDst ((src.H : Int) + yOffset) dstPixel).2).2 + 3)).bind fun a =>
      aliasedAdd dst (skewDst ((src.H : Int) + yOffset) dstPixel).1
        (skewDst ((src.H : Int) + yOffset) dstPixel).2 { R := r, G := g, B := b, A := a } := by
  unfold skewBody readColor
  simp only [Option.bind_assoc, Option.some_bind]

/-- The code of `Skew` is the loop of `skewBody` over the flattened indices. -/
theorem Skew_eq_loop (img : NRGBA) (xOffset yOffset : Int) :
    Skew img xOffset yOffset =
      forLoop 0 ((((img.W : Int) + xOffset) * ((img.H : Int) + yOffset)).toNat)
        (skewBody img xOffset yOffset)
        (NewNRGBAIn (Rect 0 0 ((img.W : Int) + xOffset) ((img.H : Int) + yOffset))) := by
  rw [show skewBody img xOffset yOffset = fun p d => _ from
    funext fun p => funext fun d => skewBody_unfold img xOffset yOffset p d]
  rfl

/-- The code of `SkewOn` is the loop of `skewBody` run on the sub-ranges. -/
theorem SkewOn_eq_loop (parts : List (Nat × Nat)) (img : NRGBA) (xOffset yOffset : Int) :
    SkewOn parts img xOffset yOffset =
      parallelOn parts (fun partStart partEnd dst =>
        forLoop partStart partEnd (skewBody img xOffset yOffset) dst)
        (NewNRGBAIn (Rect 0 0 ((img.W : Int) + xOffset) ((img.H : Int) + yOffset))) := by
  rw [show skewBody img xOffset yOffset = fun p d => _ from
    funext fun p => funext fun d => skewBody_unfold img xOffset yOffset p d]
  rfl

theorem opacityOf_nonneg (x y px py : Int) (col : ColorNRGBA) : 0 ≤ opacityOf x y px py col := by
  unfold opacityOf
  apply mul_nonneg
  · exact Int.ofNat_nonneg _
  · positivity

theorem set_mid (pre l post : List Nat) (k v : Nat) (hk : k < l.length) :
    (pre ++ l ++ post).set (pre.length + k) v = pre ++ l.set k v ++ post := by
  induction pre with
  | nil =>
    simp only [List.nil_append, List.length_nil, Nat.zero_add]
    rw [List.set_append_left _ _ hk]
  | cons a pre ih =>
    simp only [List.cons_append, List.length_cons]
    have e : pre.length + 1 + k = (pre.length + k) + 1 := by omega
    rw [e, List.set_cons_succ, ih]

theorem getD_mid (pre l post : List Nat) (k d : Nat) (hk : k < l.length) :
    (pre ++ l ++ post).getD (pre.length + k) d = l.getD k d := by
  induction pre with
  | nil =>
    simp only [List.nil_append, List.length_nil, Nat.zero_add]
    rw [List.getD_append _ _ _ _ hk]
  | cons a pre ih =>
    simp only [List.cons_append, List.length_cons]
    have e : pre.length + 1 + k = (pre.length + k) + 1 := by omega
    rw [e, List.getD_cons_succ, ih]

theorem split_at_pixel (pix : List Nat) (o : Nat) (h : o + 4 ≤ pix.length) :
    ∃ r g b a, pix = pix.take o ++ [r, g, b, a] ++ pix.drop (o + 4) ∧
      slice4 pix o = [r, g, b, a] := by
  have hl := slice4_length pix o h
  have hs : pix = pix.take o ++ slice4 pix o ++ pix.drop (o + 4) := by
    unfold slice4
    rw [List.append_assoc, ← List.drop_drop, List.take_append_drop, List.take_append_drop]
  match hq : slice4 pix o, hl with
  | [r, g, b, a], _ =>
    refine ⟨r, g, b, a, ?_, rfl⟩
    rw [hq] at hs
    exact hs

theorem set4_0 (pre post : List Nat) (r g b a v : Nat) :
    (pre ++ [r, g, b, a] ++ post).set (pre.length + 0) v = pre ++ [v, g, b, a] ++ post :=
  set_mid pre [r, g, b, a] post 0 v (by simp)

theorem set4_1 (pre post : List Nat) (r g b a v : Nat) :
    (pre ++ [r, g, b, a] ++ post).set (pre.length + 1) v = pre ++ [r, v, b, a] ++ post :=
  set_mid pre [r, g, b, a] post 1 v (by simp)

theorem set4_2 (pre post : List Nat) (r g b a v : Nat) :
    (pre ++ [r, g, b, a] ++ post).set (pre.length + 2) v = pre ++ [r, g, v, a] ++ post :=
  set_mid pre [r, g, b, a] post 2 v (by simp)

theorem set4_3 (pre post : List Nat) (r g b a v : Nat) :
    (pre ++ [r, g, b, a] ++ post).set (pre.length + 3) v = pre ++ [r, g, b, v] ++ post :=
  set_mid pre [r, g, b, a] post 3 v (by simp)

theorem getD4_0 (pre post : List Nat) (r g b a : Nat) :
    (pre ++ [r, g, b, a] ++ post).getD (pre.length + 0) 0 = r :=
  getD_mid pre [r, g, b, a] post 0 0 (by simp)

theorem getD4_1 (pre post : List Nat) (r g b a : Nat) :
    (pre ++ [r, g, b, a] ++ post).getD (pre.length + 1) 0 = g :=
  getD_mid pre [r, g, b, a] post 1 0 (by simp)

theorem getD4_3 (pre post : List Nat) (r g b a : Nat) :
    (pre ++ [r, g, b, a] ++ post).getD (pre.length + 3) 0 = a :=
  getD_mid pre [r, g, b, a] post 3 0 (by simp)

theorem blend_sets (pre post : List Nat) (r g b a : Nat) (col : ColorNRGBA) (w : Nat) :
    (let pix := pre ++ [r, g, b, a] ++ post
     let o := pre.length
     let pix :=
      if pix.getD (o + 3) 0 = 0 then
        ((pix.set (o + 0) col.R).set (o + 1) col.G).set (o + 2) col.B
      else
        let pix := pix.set (o + 0) (((col.R + pix.getD (o + 0) 0) % 256) / 2)
        let pix := pix.set (o + 1) (((col.G + pix.getD (o + 1) 0) % 256) / 2)
        pix.set (o + 3) (((col.B + pix.getD (o + 3) 0) % 256) / 2)
     pix.set (o + 3) ((pix.getD (o + 3) 0 + w % 256) % 256))
      = pre ++ blend4 [r, g, b, a] col w ++ post := by
  by_cases ha : a = 0
  · subst ha
    simp only [getD4_3, if_true, set4_0, set4_1, set4_2, set4_3]
    rfl
  · simp only [getD4_3, if_neg ha, set4_0, set4_1, set4_3, getD4_0, getD4_1]
    simp only [blend4, List.getD_cons_succ, List.getD_cons_zero, if_neg ha]

theorem aliasedAddPixel_eq (img : ImageNRGBA) (x y px py : Int) (col : ColorNRGBA) :
    aliasedAddPixel img x y px py col =
      if 0 ≤ img.PixOffset px py ∧ img.PixOffset px py + 3 < (img.Pix.length : Int) then
        some { img with Pix := (blendAt img.Pix (img.PixOffset px py).toNat col
          (opacityOf x y px py col).toNat) }
      else none := by
  have hop : ¬ (opacityOf x y px py col < 0) := not_lt.2 (opacityOf_nonneg x y px py col)
  unfold aliasedAddPixel
  simp only []
  rw [show ((((255 * col.A) % 256 : Nat) : Int) * ((px - x) ^ 2 + (py - y) ^ 2))
    = opacityOf x y px py col from rfl, if_neg hop]
  by_cases hin : 0 ≤ img.PixOffset px py ∧ img.PixOffset px py + 3 < (img.Pix.length : Int)
  · rw [if_pos hin, if_pos hin]
    have ho : (img.PixOffset px py).toNat + 4 ≤ img.Pix.length := by omega
    obtain ⟨r, g, b, a, hsplit, hslice⟩ := split_at_pixel img.Pix _ ho
    have hlen : (img.Pix.take (img.PixOffset px py).toNat).length = (img.PixOffset px py).toNat := by
      rw [List.length_take]; omega
    have key := blend_sets (img.Pix.take (img.PixOffset px py).toNat)
      (img.Pix.drop ((img.PixOffset px py).toNat + 4)) r g b a col (opacityOf x y px py col).toNat
    simp only [] at key
    rw [← hsplit, hlen] at key
    unfold blendAt
    rw [hslice]
    congr 1
    congr 1
  · rw [if_neg hin, if_neg hin]

theorem blend4_length (old : List Nat) (col : ColorNRGBA) (w : Nat) :
    (blend4 old col w).length = 4 := by
  unfold blend4
  split <;> rfl

theorem blendAt_length (pix : List Nat) (o : Nat) (col : ColorNRGBA) (w : Nat)
    (h : o + 4 ≤ pix.length) : (blendAt pix o col w).length = pix.length :=
  written_length pix _ o h (blend4_length _ col w)

theorem slice4_blendAt_same (pix : List Nat) (o : Nat) (col : ColorNRGBA) (w : Nat)
    (h : o + 4 ≤ pix.length) : slice4 (blendAt pix o col w) o = blend4 (slice4 pix o) col w :=
  slice4_written_same pix _ o h (blend4_length _ col w)

theorem slice4_blendAt_other (pix : List Nat) (o o' : Nat) (col : ColorNRGBA) (w : Nat)
    (h : o + 4 ≤ pix.length) (hd : o' + 4 ≤ o ∨ o + 4 ≤ o') :
    slice4 (blendAt pix o col w) o' = slice4 pix o' :=
  slice4_written_other pix _ o o' h (blend4_length _ col w) hd

/-- A call of `aliasedAddPixel` panics exactly when the four bytes of its
target are not inside the byte array. -/
theorem aliasedAddPixel_eq_none_iff (img : ImageNRGBA) (x y px py : Int) (col : ColorNRGBA) :
    aliasedAddPixel img x y px py col = none ↔
      ¬ (0 ≤ img.PixOffset px py ∧ img.PixOffset px py + 3 < (img.Pix.length : Int)) := by
  rw [aliasedAddPixel_eq]
  split <;> simp [*]

theorem aliasedAddPixel_shape (d0 img img' : ImageNRGBA) (x y px py : Int) (col : ColorNRGBA)
    (hs : SameShape d0 img) (h : aliasedAddPixel img x y px py col = some img') :
    SameShape d0 img' := by
  rw [aliasedAddPixel_eq] at h
  split at h
  · rename_i hin
    obtain ⟨h1, h2, h3⟩ := hs
    have e := Option.some.inj h
    subst e
    refine ⟨h1, h2, ?_⟩
    show (blendAt _ _ _ _).length = _
    rw [blendAt_length _ _ _ _ (by omega), h3]
  · exact absurd h (by simp)

theorem PixOffset_of_shape (d0 img : ImageNRGBA) (hs : SameShape d0 img) (px py : Int) :
    img.PixOffset px py = d0.PixOffset px py := by
  unfold ImageNRGBA.PixOffset
  rw [hs.1, hs.2.1]

theorem aliasedAdd_shape (d0 img img' : ImageNRGBA) (x y : Int) (col : ColorNRGBA)
    (hs : SameShape d0 img) (h : aliasedAdd img x y col = some img') : SameShape d0 img' := by
  unfold aliasedAdd at h
  cases h1 : aliasedAddPixel img x y x y col with
  | none => rw [h1] at h; exact absurd h (by simp)
  | some i1 =>
    rw [h1, Option.some_bind] at h
    have s1 := aliasedAddPixel_shape d0 img i1 x y x y col hs h1
    cases h2 : aliasedAddPixel i1 x y x (y + 1) col with
    | none => rw [h2] at h; exact absurd h (by simp)
    | some i2 =>
      rw [h2, Option.some_bind] at h
      have s2 := aliasedAddPixel_shape d0 i1 i2 x y x (y + 1) col s1 h2
      cases h3 : aliasedAddPixel i2 x y (x + 1) y col with
      | none => rw [h3] at h; exact absurd h (by simp)
      | some i3 =>
        rw [h3, Option.some_bind] at h
        have s3 := aliasedAddPixel_shape d0 i2 i3 x y (x + 1) y col s2 h3
        exact aliasedAddPixel_shape d0 i3 img' x y (x + 1) (y + 1) col s3 h

/-- A call of `aliasedAdd` that returns has found the bytes of each of its four
targets inside the byte array. -/
theorem aliasedAdd_targets_in_range (d0 img img' : ImageNRGBA) (x y : Int) (col : ColorNRGBA)
    (hs : SameShape d0 img) (h : aliasedAdd img x y col = some img') :
    ∀ t ∈ aliasedAddTargets x y,
      0 ≤ d0.PixOffset t.1 t.2 ∧ d0.PixOffset t.1 t.2 + 3 < (d0.Pix.length : Int) := by
  unfold aliasedAdd at h
  have inr : ∀ (i : ImageNRGBA) (px py : Int), SameShape d0 i →
      aliasedAddPixel i x y px py col ≠ none →
      0 ≤ d0.PixOffset px py ∧ d0.PixOffset px py + 3 < (d0.Pix.length : Int) := by
    intro i px py si hne
    have := (not_congr (aliasedAddPixel_eq_none_iff i x y px py col)).1 hne
    rw [PixOffset_of_shape d0 i si, si.2.2] at this
    exact not_not.1 this
  cases h1 : aliasedAddPixel img x y x y col with
  | none => rw [h1] at h; exact absurd h (by simp)
  | some i1 =>
    rw [h1, Option.some_bind] at h
    have s1 := aliasedAddPixel_shape d0 img i1 x y x y col hs h1
    cases h2 : aliasedAddPixel i1 x y x (y + 1) col with
    | none => rw [h2] at h; exact absurd h (by simp)
    | some i2 =>
      rw [h2, Option.some_bind] at h
      have s2 := aliasedAddPixel_shape d0 i1 i2 x y x (y + 1) col s1 h2
      cases h3 : aliasedAddPixel i2 x y (x + 1) y col with
      | none => rw [h3] at h; exact absurd h (by simp)
      | some i3 =>
        rw [h3, Option.some_bind] at h
        have s3 := aliasedAddPixel_shape d0 i2 i3 x y (x + 1) y col s2 h3
        intro t ht
        simp only [aliasedAddTargets, List.mem_cons, List.mem_singleton, List.not_mem_nil,
          or_false] at ht
        rcases ht with rfl | rfl | rfl | rfl
        · exact inr img _ _ hs (by rw [h1]; simp)
        · exact inr i1 _ _ s1 (by rw [h2]; simp)
        · exact inr i2 _ _ s2 (by rw [h3]; simp)
        · exact inr i3 _ _ s3 (by rw [h]; simp)

/-- A call of `aliasedAdd` panics as soon as one of its four targets has its
bytes outside the byte array. -/
theorem aliasedAdd_none_of_target (d0 img : ImageNRGBA) (x y : Int) (col : ColorNRGBA)
    (hs : SameShape d0 img) (t : Int × Int) (ht : t ∈ aliasedAddTargets x y)
    (hout : ¬ (0 ≤ d0.PixOffset t.1 t.2 ∧ d0.PixOffset t.1 t.2 + 3 < (d0.Pix.length : Int))) :
    aliasedAdd img x y col = none := by
  cases h : aliasedAdd img x y col with
  | none => rfl
  | some img' => exact absurd (aliasedAdd_targets_in_range d0 img img' x y col hs h t ht) hout

theorem skewBody_shape (src : NRGBA) (xOffset yOffset : Int) (d0 d d' : ImageNRGBA) (p : Nat)
    (hs : SameShape d0 d) (h : skewBody src xOffset yOffset p d = some d') :
    SameShape d0 d' := by
  unfold skewBody at h
  cases hc : readColor src.Pix (src.PixOffset
      (skewSrc src.W src.H xOffset yOffset
        (skewDst ((src.H : Int) + yOffset) p).1
        (skewDst ((src.H : Int) + yOffset) p).2).1
      (skewSrc src.W src.H xOffset yOffset
        (skewDst ((src.H : Int) + yOffset) p).1
        (skewDst ((src.H : Int) + yOffset) p).2).2) with
  | none => rw [hc] at h; exact absurd h (by simp)
  | some col =>
    rw [hc, Option.some_bind] at h
    exact aliasedAdd_shape d0 d d' _ _ col hs h

/-! ## Loops that panic, loops that return -/

theorem loopFrom_some_inv {σ : Type} (Inv : σ → Prop) (body : Nat → σ → Option σ)
    (hpres : ∀ i s s', Inv s → body i s = some s' → Inv s') :
    ∀ (n lo : Nat) (s s' : σ), Inv s → loopFrom body lo n s = some s' → Inv s' := by
  intro n
  induction n with
  | zero =>
    intro lo s s' hI h
    simp only [loopFrom, Option.some.injEq] at h
    subst h; exact hI
  | succ n ih =>
    intro lo s s' hI h
    simp only [loopFrom] at h
    cases hb : body lo s with
    | none => rw [hb] at h; exact absurd h (by simp)
    | some t =>
      rw [hb, Option.some_bind] at h
      exact ih (lo + 1) t s' (hpres lo s t hI hb) h

theorem loopFrom_some_each {σ : Type} (Inv : σ → Prop) (body : Nat → σ → Option σ)
    (hpres : ∀ i s s', Inv s → body i s = some s' → Inv s') :
    ∀ (n lo : Nat) (s s' : σ), Inv s → loopFrom body lo n s = some s' →
      ∀ i, lo ≤ i → i < lo + n → ∃ t t', Inv t ∧ body i t = some t' := by
  intro n
  induction n with
  | zero => intro lo s s' _ _ i h1 h2; omega
  | succ n ih =>
    intro lo s s' hI h i h1 h2
    simp only [loopFrom] at h
    cases hb : body lo s with
    | none => rw [hb] at h; exact absurd h (by simp)
    | some t =>
      rw [hb, Option.some_bind] at h
      by_cases hi : i = lo
      · subst hi; exact ⟨s, t, hI, hb⟩
      · exact ih (lo + 1) t s' (hpres lo s t hI hb) h i (by omega) (by omega)

theorem loopFrom_none_of_step {σ : Type} (Inv : σ → Prop) (body : Nat → σ → Option σ)
    (hpres : ∀ i s s', Inv s → body i s = some s' → Inv s')
    (k : Nat) (hk : ∀ s, Inv s → body k s = none) :
    ∀ (n lo : Nat) (s : σ), lo ≤ k → k < lo + n → Inv s → loopFrom body lo n s = none := by
  intro n
  induction n with
  | zero => intro lo s h1 h2 _; omega
  | succ n ih =>
    intro lo s h1 h2 hI
    simp only [loopFrom]
    by_cases hi : k = lo
    · subst hi; rw [hk s hI]; rfl
    · cases hb : body lo s with
      | none => rfl
      | some t =>
        rw [Option.some_bind]
        exact ih (lo + 1) t (by omega) (by omega) (hpres lo s t hI hb)

/-! ## The skew transform: size of the result and failure -/

theorem NewNRGBAIn_nonneg (w h : Int) (hw : 0 ≤ w) (hh : 0 ≤ h) :
    NewNRGBAIn (Rect 0 0 w h) =
      { Pix := List.replicate (4 * w * h).toNat 0, Stride := 4 * w,
        Rect := { MinX := 0, MinY := 0, MaxX := w, MaxY := h } } := by
  unfold NewNRGBAIn Rect
  simp only [gt_iff_lt, if_neg (not_lt.2 hw), if_neg (not_lt.2 hh), sub_zero]

theorem Skew_shape (img : NRGBA) (xOffset yOffset : Int) (d : ImageNRGBA)
    (h : Skew img xOffset yOffset = some d) :
    SameShape (NewNRGBAIn (Rect 0 0 ((img.W : Int) + xOffset) ((img.H : Int) + yOffset))) d := by
  rw [Skew_eq_loop] at h
  exact loopFrom_some_inv (SameShape _) (skewBody img xOffset yOffset)
    (fun i s s' hs hb => skewBody_shape img xOffset yOffset _ s s' i hs hb)
    _ 0 _ d ⟨rfl, rfl, rfl⟩ h

theorem skewBody_none_of_target (src : NRGBA) (xOffset yOffset : Int) (d0 d : ImageNRGBA)
    (p : Nat) (hs : SameShape d0 d) (t : Int × Int)
    (ht : t ∈ aliasedAddTargets (skewDst ((src.H : Int) + yOffset) p).1
      (skewDst ((src.H : Int) + yOffset) p).2)
    (hout : ¬ (0 ≤ d0.PixOffset t.1 t.2 ∧ d0.PixOffset t.1 t.2 + 3 < (d0.Pix.length : Int))) :
    skewBody src xOffset yOffset p d = none := by
  unfold skewBody
  cases readColor src.Pix _ with
  | none => rfl
  | some col =>
    rw [Option.some_bind]
    exact aliasedAdd_none_of_target d0 d _ _ col hs t ht hout

/-- With a destination of positive size `dstW × dstH` and `dstH ≤ dstW*dstW + 1`
the first index of the last group has its fourth target past the end of the
destination bytes. -/
theorem skew_last_target (dstW dstH : Int) (hW : 1 ≤ dstW) (hH : 1 ≤ dstH)
    (hle : dstH ≤ dstW * dstW + 1) :
    skewDst dstH ((dstW - 1) * dstH).toNat = ((dstW - 1) * dstH, dstW - 1) ∧
    (NewNRGBAIn (Rect 0 0 dstW dstH)).PixOffset ((dstW - 1) * dstH + 1) (dstW - 1 + 1)
      = 4 * (dstW * dstW + (dstW - 1) * dstH + 1) ∧
    ((NewNRGBAIn (Rect 0 0 dstW dstH)).Pix.length : Int) = 4 * dstW * dstH ∧
    4 * dstW * dstH ≤ 4 * (dstW * dstW + (dstW - 1) * dstH + 1) := by
  have hk : 0 ≤ (dstW - 1) * dstH := mul_nonneg (by omega) (by omega)
  have hn : 0 ≤ 4 * dstW * dstH := mul_nonneg (by omega) (by omega)
  refine ⟨?_, ?_, ?_, ?_⟩
  · unfold skewDst
    rw [Int.toNat_of_nonneg hk, Int.mul_tmod_left, Int.mul_tdiv_cancel _ (by omega)]
    simp
  · rw [NewNRGBAIn_nonneg dstW dstH (by omega) (by omega)]
    unfold ImageNRGBA.PixOffset
    simp only []
    ring
  · rw [NewNRGBAIn_nonneg dstW dstH (by omega) (by omega)]
    simp only [List.length_replicate]
    exact Int.toNat_of_nonneg hn
  · nlinarith

theorem Skew_none_of_small (img : NRGBA) (xOffset yOffset : Int)
    (hW : 1 ≤ (img.W : Int) + xOffset) (hH : 1 ≤ (img.H : Int) + yOffset)
    (hle : (img.H : Int) + yOffset ≤ ((img.W : Int) + xOffset) * ((img.W : Int) + xOffset) + 1) :
    Skew img xOffset yOffset = none := by
  obtain ⟨h1, h2, h3, h4⟩ := skew_last_target _ _ hW hH hle
  rw [Skew_eq_loop]
  have hk : 0 ≤ ((img.W : Int) + xOffset - 1) * ((img.H : Int) + yOffset) :=
    mul_nonneg (by omega) (by omega)
  refine loopFrom_none_of_step (SameShape _) (skewBody img xOffset yOffset)
    (fun i s s' hs hb => skewBody_shape img xOffset yOffset _ s s' i hs hb)
    (((img.W : Int) + xOffset - 1) * ((img.H : Int) + yOffset)).toNat
    (fun s hs => skewBody_none_of_target img xOffset yOffset _ s _ hs
      (((img.W : Int) + xOffset - 1) * ((img.H : Int) + yOffset) + 1,
        (img.W : Int) + xOffset - 1 + 1) ?_ ?_)
    _ 0 _ (Nat.zero_le _) ?_ ⟨rfl, rfl, rfl⟩
  · rw [h1]
    simp [aliasedAddTargets]
  · simp only []
    rw [h2, h3]
    omega
  · rw [Nat.sub_zero, Nat.zero_add]
    apply (Int.toNat_lt_toNat _).2
    · nlinarith
    · nlinarith

/-- The destination coordinate decoded from a flattened index when the
destination height is positive. -/
theorem skewDst_pos (h p : Nat) :
    skewDst (h : Int) p = (((h * (p / h) : Nat) : Int), ((p / h : Nat) : Int)) := by
  unfold skewDst
  rw [← Int.ofNat_tmod, ← Int.ofNat_tdiv]
  have e := Nat.div_add_mod p h
  congr 1
  have e' : ((h * (p / h) + p % h : Nat) : Int) = (p : Int) := by rw [e]
  push_cast at e' ⊢
  omega

/-- Every flattened index of the last group decodes to the same destination
coordinate. -/
theorem skewDst_last_group (dstW dstH : Int) (hW : 1 ≤ dstW) (hH : 1 ≤ dstH) (p : Nat)
    (hlo : (dstW - 1) * dstH ≤ (p : Int)) (hhi : (p : Int) < dstW * dstH) :
    skewDst dstH p = ((dstW - 1) * dstH, dstW - 1) := by
  obtain ⟨h, hN⟩ : ∃ h : Nat, (h : Int) = dstH := ⟨dstH.toNat, Int.toNat_of_nonneg (by omega)⟩
  obtain ⟨w, wN⟩ : ∃ w : Nat, (w : Int) = dstW := ⟨dstW.toNat, Int.toNat_of_nonneg (by omega)⟩
  subst hN wN
  have hw : 1 ≤ w := by exact_mod_cast hW
  have e1 : (((w - 1) * h : Nat) : Int) = ((w : Int) - 1) * (h : Int) := by
    rw [Nat.cast_mul, Nat.cast_sub hw]; simp
  have hlo' : (w - 1) * h ≤ p := by
    rw [← e1] at hlo; exact_mod_cast hlo
  have hhi' : p < (w - 1 + 1) * h := by
    rw [Nat.sub_add_cancel hw]; exact_mod_cast hhi
  have hdiv : p / h = w - 1 := Nat.div_eq_of_lt_le hlo' hhi'
  rw [skewDst_pos, hdiv, Nat.mul_comm, e1, Nat.cast_sub hw]
  simp


/-! ## Claim C13: zero offsets -/

/-- C13, as stated, fails: `Skew` with offsets `(0, 0)` does not complete on
the image of one pixel, and on the image one pixel wide and three high it
completes with bytes that are not those of the image. -/
theorem C13_zero_offsets_not_identity :
    Skew skewPixel 0 0 = none ∧
    Skew skewColumn 0 0 = some skewColumnResult ∧
    skewColumnResult.pixelAt 0 0 ≠ pixelAt skewColumn 0 0 ∧
    skewColumnResult.pixelAt 0 1 ≠ pixelAt skewColumn 0 1 ∧
    skewColumnResult.pixelAt 0 2 ≠ pixelAt skewColumn 0 2 := by
  decide

/-- C13, amended. For every source image of width `W` and height `H`,
`Skew(img, 0, 0)` fails when `1 ≤ W` and `1 ≤ H ≤ W*W + 1`, and whenever it
completes it returns a buffer of width `W` and height `H` (bounds from `(0, 0)`
to `(W, H)`, stride `4*W`, `4*W*H` bytes); nothing is said of the bytes. -/
theorem C13_zero_offsets_size (img : NRGBA) :
    (1 ≤ img.W → 1 ≤ img.H → img.H ≤ img.W * img.W + 1 → Skew img 0 0 = none) ∧
    ∀ d, Skew img 0 0 = some d →
      d.Rect = { MinX := 0, MinY := 0, MaxX := img.W, MaxY := img.H } ∧
      d.Rect.MaxX - d.Rect.MinX = img.W ∧ d.Rect.MaxY - d.Rect.MinY = img.H ∧
      d.Stride = 4 * img.W ∧ d.Pix.length = 4 * img.W * img.H := by
  refine ⟨fun hW hH hle => ?_, fun d h => ?_⟩
  · apply Skew_none_of_small img 0 0
    · simp only [add_zero]; exact_mod_cast hW
    · simp only [add_zero]; exact_mod_cast hH
    · simp only [add_zero]; exact_mod_cast hle
  · obtain ⟨h1, h2, h3⟩ := Skew_shape img 0 0 d h
    rw [NewNRGBAIn_nonneg _ _ (by simp) (by simp)] at h1 h2 h3
    simp only [add_zero] at h1 h2 h3
    refine ⟨h2, by rw [h2]; simp, by rw [h2]; simp, h1, ?_⟩
    rw [h3, List.length_replicate]
    have e : (4 * (img.W : Int) * (img.H : Int)) = ((4 * img.W * img.H : Nat) : Int) := by
      push_cast; ring
    rw [e, Int.toNat_ofNat]

/-- The amended C13 on the image one pixel wide and three high, on which
`Skew` with offsets `(0, 0)` completes. -/
theorem C13_zero_offsets_size_column :
    Skew skewColumn 0 0 = some skewColumnResult ∧
    skewColumnResult.Rect = { MinX := 0, MinY := 0, MaxX := skewColumn.W, MaxY := skewColumn.H } ∧
    skewColumnResult.Rect.MaxX - skewColumnResult.Rect.MinX = skewColumn.W ∧
    skewColumnResult.Rect.MaxY - skewColumnResult.Rect.MinY = skewColumn.H ∧
    skewColumnResult.Stride = 4 * skewColumn.W ∧
    skewColumnResult.Pix.length = 4 * skewColumn.W * skewColumn.H :=
  ⟨by decide, (C13_zero_offsets_size skewColumn).2 skewColumnResult (by decide)⟩

/-! ## Claim C17: the destinations on which the skew transform fails -/

/-- C17. For every source buffer and every pair of offsets with
`dstW = W + xOffset ≥ 1`, `dstH = H + yOffset ≥ 1` and `dstH ≤ dstW*dstW + 1`,
`Skew` does not complete: for every flattened index of the last group the
decoded coordinate is `((dstW-1)*dstH, dstW-1)` and the target
`(dstX+1, dstY+1)` has byte offset `4*(dstW*dstW + (dstW-1)*dstH + 1)`, which
is at or past the end of the `4*dstW*dstH` destination bytes. -/
theorem C17_skew_fails (img : NRGBA) (xOffset yOffset : Int)
    (hW : 1 ≤ (img.W : Int) + xOffset) (hH : 1 ≤ (img.H : Int) + yOffset)
    (hle : (img.H : Int) + yOffset
      ≤ ((img.W : Int) + xOffset) * ((img.W : Int) + xOffset) + 1) :
    Skew img xOffset yOffset = none ∧
    ∀ p : Nat, ((img.W : Int) + xOffset - 1) * ((img.H : Int) + yOffset) ≤ (p : Int) →
      (p : Int) < ((img.W : Int) + xOffset) * ((img.H : Int) + yOffset) →
      skewDst ((img.H : Int) + yOffset) p
        = (((img.W : Int) + xOffset - 1) * ((img.H : Int) + yOffset),
            (img.W : Int) + xOffset - 1) ∧
      ((skewDst ((img.H : Int) + yOffset) p).1 + 1, (skewDst ((img.H : Int) + yOffset) p).2 + 1)
        ∈ aliasedAddTargets (skewDst ((img.H : Int) + yOffset) p).1
            (skewDst ((img.H : Int) + yOffset) p).2 ∧
      (NewNRGBAIn (Rect 0 0 ((img.W : Int) + xOffset) ((img.H : Int) + yOffset))).PixOffset
          ((skewDst ((img.H : Int) + yOffset) p).1 + 1)
          ((skewDst ((img.H : Int) + yOffset) p).2 + 1)
        = 4 * (((img.W : Int) + xOffset) * ((img.W : Int) + xOffset)
            + ((img.W : Int) + xOffset - 1) * ((img.H : Int) + yOffset) + 1) ∧
      ((NewNRGBAIn (Rect 0 0 ((img.W : Int) + xOffset)
          ((img.H : Int) + yOffset))).Pix.length : Int)
        = 4 * ((img.W : Int) + xOffset) * ((img.H : Int) + yOffset) ∧
      4 * ((img.W : Int) + xOffset) * ((img.H : Int) + yOffset)
        ≤ 4 * (((img.W : Int) + xOffset) * ((img.W : Int) + xOffset)
            + ((img.W : Int) + xOffset - 1) * ((img.H : Int) + yOffset) + 1) := by
  obtain ⟨_, h2, h3, h4⟩ := skew_last_target _ _ hW hH hle
  refine ⟨Skew_none_of_small img xOffset yOffset hW hH hle, fun p hlo hhi => ?_⟩
  have hd := skewDst_last_group _ _ hW hH p hlo hhi
  rw [hd]
  exact ⟨rfl, by simp [aliasedAddTargets], h2, h3, h4⟩

/-- The test fixture, a square image of one pixel and a widened image: `Skew`
fails on each, by C17. -/
theorem C17_skew_fails_fixture :
    Skew skewPixel 0 0 = none ∧ Skew fixture 0 0 = none ∧ Skew fixture 1 0 = none := by
  refine ⟨(C17_skew_fails skewPixel 0 0 (by decide) (by decide) (by decide)).1,
    (C17_skew_fails fixture 0 0 (by decide) (by decide) (by decide)).1,
    (C17_skew_fails fixture 1 0 (by decide) (by decide) (by decide)).1⟩

/-! ## Claim C18: the decoding of the flattened index -/

/-- C18 fails on the code. For a 2x2 destination the flattened index 2 is
decoded as `(dstX, dstY) = (2, 1)`, outside the grid, the indices 0 and 1 are
both decoded as `(0, 0)`, and no index below 4 is decoded as `(1, 0)`,
`(0, 1)` or `(1, 1)`. -/
theorem C18_decode_leaves_grid :
    skewDst 2 2 = (2, 1) ∧ ¬ ((skewDst 2 2).1 < 2) ∧
    skewDst 2 0 = (0, 0) ∧ skewDst 2 1 = (0, 0) ∧
    (∀ p, p < 2 * 2 → skewDst 2 p ≠ (1, 0) ∧ skewDst 2 p ≠ (0, 1) ∧ skewDst 2 p ≠ (1, 1)) := by
  decide

/-! ## Claims C19 and C20: the blend of `aliasedAddPixel` -/

/-- C19 fails on the code. On a target pixel `(200, 20, 30, 40)` the incoming
colour `(100, 60, 70, 80)` leaves red `22`, not `floor((100 + 200)/2) = 150`,
because the 8-bit sum wraps; it leaves blue `30` unchanged, not
`floor((70 + 30)/2) = 50`, because the average of the blue byte and the alpha
byte is stored in the alpha slot; green is the average `40`. -/
theorem C19_blend_at_coloured_pixel :
    aliasedAddPixel blendTarget 0 0 0 0 { R := 100, G := 60, B := 70, A := 80 }
      = some { blendTarget with Pix := [22, 40, 30, 55] } ∧
    (22 : Nat) ≠ (100 + 200) / 2 ∧ (30 : Nat) ≠ (70 + 30) / 2 ∧ (40 : Nat) = (60 + 20) / 2 ∧
    (55 : Nat) = (70 + 40) / 2 := by
  decide

/-- C20, as stated, fails: on a fresh pixel (alpha 0) the call with incoming
alpha 255 for the target one row below `(x, y)` leaves alpha 1, where the
claim has `min(255, 0 + 255 * 255 * 1) = 255`. -/
theorem C20_alpha_not_saturating :
    aliasedAddPixel freshTarget 0 0 0 1 { R := 1, G := 2, B := 3, A := 255 }
      = some { freshTarget with Pix := [0, 0, 0, 0, 1, 2, 3, 1] } ∧
    (1 : Nat) ≠ min 255 (0 + 255 * 255 * ((0 - 0) ^ 2 + (1 - 0) ^ 2)) := by
  decide

/-- C20, amended. For every call `aliasedAddPixel(img, x, y, px, py, col)`
with whole numbers `x`, `y`, the four bytes of the target inside the byte
array and existing target alpha `0`, the target alpha afterwards is
`((255*A mod 256) * ((px - x)^2 + (py - y)^2)) mod 256`: the weight is formed
and added in 8-bit arithmetic, which wraps modulo 256 and does not
saturate. -/
theorem C20_alpha_wraps (img : ImageNRGBA) (x y px py : Int) (col : ColorNRGBA)
    (hin : 0 ≤ img.PixOffset px py ∧ img.PixOffset px py + 3 < (img.Pix.length : Int))
    (ha : (img.pixelAt px py).getD 3 0 = 0) :
    ∃ img', aliasedAddPixel img x y px py col = some img' ∧
      (img'.pixelAt px py).getD 3 0 =
        ((((255 * col.A) % 256 : Nat) : Int) * ((px - x) ^ 2 + (py - y) ^ 2)).toNat % 256 := by
  rw [aliasedAddPixel_eq, if_pos hin]
  refine ⟨_, rfl, ?_⟩
  have ho : (img.PixOffset px py).toNat + 4 ≤ img.Pix.length := by omega
  show (slice4 (blendAt _ _ _ _) (img.PixOffset px py).toNat).getD 3 0 = _
  rw [slice4_blendAt_same _ _ _ _ ho]
  unfold ImageNRGBA.pixelAt at ha
  unfold blend4
  rw [if_pos ha]
  simp [opacityOf]

/-- The amended C20 on a fresh destination pixel. -/
theorem C20_alpha_wraps_fresh :
    ∃ img', aliasedAddPixel freshTarget 0 0 0 1 { R := 1, G := 2, B := 3, A := 255 }
        = some img' ∧
      (img'.pixelAt 0 1).getD 3 0 =
        ((((255 * 255) % 256 : Nat) : Int) * ((0 - 0) ^ 2 + (1 - 0) ^ 2)).toNat % 256 :=
  C20_alpha_wraps freshTarget 0 0 0 1 { R := 1, G := 2, B := 3, A := 255 }
    (by decide) (by decide)

/-! ## Claim C14: what bounds the accesses of the skew transform -/

theorem readByte_some (pix : List Nat) (i : Int) (v : Nat) (h : readByte pix i = some v) :
    0 ≤ i ∧ i < (pix.length : Int) := by
  unfold readByte at h
  split at h
  · assumption
  · exact absurd h (by simp)

theorem readColor_some (pix : List Nat) (off : Int) (c : ColorNRGBA)
    (h : readColor pix off = some c) : 0 ≤ off ∧ off + 3 < (pix.length : Int) := by
  unfold readColor at h
  cases h0 : readByte pix (off + 0) with
  | none => rw [h0] at h; exact absurd h (by simp)
  | some r =>
    rw [h0, Option.some_bind] at h
    cases h1 : readByte pix (off + 1) with
    | none => rw [h1] at h; exact absurd h (by simp)
    | some g =>
      rw [h1, Option.some_bind] at h
      cases h2 : readByte pix (off + 2) with
      | none => rw [h2] at h; exact absurd h (by simp)
      | some b =>
        rw [h2, Option.some_bind] at h
        cases h3 : readByte pix (off + 3) with
        | none => rw [h3] at h; exact absurd h (by simp)
        | some a =>
          have e0 := readByte_some pix _ r h0
          have e3 := readByte_some pix _ a h3
          omega

theorem skewBody_some_in_range (src : NRGBA) (xOffset yOffset : Int) (d0 d d' : ImageNRGBA)
    (p : Nat) (hs : SameShape d0 d) (h : skewBody src xOffset yOffset p d = some d') :
    (0 ≤ src.PixOffset
        (skewSrc src.W src.H xOffset yOffset
          (skewDst ((src.H : Int) + yOffset) p).1 (skewDst ((src.H : Int) + yOffset) p).2).1
        (skewSrc src.W src.H xOffset yOffset
          (skewDst ((src.H : Int) + yOffset) p).1 (skewDst ((src.H : Int) + yOffset) p).2).2 ∧
      src.PixOffset
        (skewSrc src.W src.H xOffset yOffset
          (skewDst ((src.H : Int) + yOffset) p).1 (skewDst ((src.H : Int) + yOffset) p).2).1
        (skewSrc src.W src.H xOffset yOffset
          (skewDst ((src.H : Int) + yOffset) p).1 (skewDst ((src.H : Int) + yOffset) p).2).2
        + 3 < (src.Pix.length : Int)) ∧
    ∀ t ∈ aliasedAddTargets (skewDst ((src.H : Int) + yOffset) p).1
        (skewDst ((src.H : Int) + yOffset) p).2,
      0 ≤ d0.PixOffset t.1 t.2 ∧ d0.PixOffset t.1 t.2 + 3 < (d0.Pix.length : Int) := by
  unfold skewBody at h
  cases hc : readColor src.Pix (src.PixOffset
      (skewSrc src.W src.H xOffset yOffset
        (skewDst ((src.H : Int) + yOffset) p).1
        (skewDst ((src.H : Int) + yOffset) p).2).1
      (skewSrc src.W src.H xOffset yOffset
        (skewDst ((src.H : Int) + yOffset) p).1
        (skewDst ((src.H : Int) + yOffset) p).2).2) with
  | none => rw [hc] at h; exact absurd h (by simp)
  | some col =>
    rw [hc, Option.some_bind] at h
    exact ⟨readColor_some _ _ col hc, aliasedAdd_targets_in_range d0 d d' _ _ col hs h⟩

/-- C14, as stated, fails. `Skew` of the 2x3 test fixture with offsets
`(-1, 3)` completes; for the flattened index 0 it reads the source coordinate
`(2, -1)`, outside `[0, 2) x [0, 3)`, whose byte offset is that of the source
pixel `(0, 0)`, and it blends into the destination coordinate `(1, 0)`,
outside `[0, 1) x [0, 6)`, whose byte offset is that of the destination pixel
`(0, 1)`. -/
theorem C14_coordinates_leave_grids :
    Skew fixture (-1) 3 = some skewFixtureResult ∧
    skewDst ((fixture.H : Int) + 3) 0 = (0, 0) ∧
    skewSrc fixture.W fixture.H (-1) 3 0 0 = (2, -1) ∧
    ¬ ((2 : Int) < fixture.W) ∧ ¬ ((0 : Int) ≤ -1) ∧
    fixture.PixOffset 2 (-1) = fixture.PixOffset 0 0 ∧
    ((1 : Int), (0 : Int)) ∈ aliasedAddTargets 0 0 ∧
    ¬ ((1 : Int) < (fixture.W : Int) + -1) ∧
    skewFixtureResult.PixOffset 1 0 = skewFixtureResult.PixOffset 0 1 := by
  decide

/-- C14, amended. For every source buffer and every pair of offsets, when
`Skew` completes, every byte offset it read in the source and every byte
offset it read or wrote in the destination, with the three bytes after it, was
inside the respective byte array (an offset outside makes the call fail on
the index); coordinates are neither clamped nor checked against the pixel
grids, so a byte of another pixel of the same array can be touched. -/
theorem C14_accesses_inside_arrays (img : NRGBA) (xOffset yOffset : Int) (d : ImageNRGBA)
    (h : Skew img xOffset yOffset = some d) (p : Nat)
    (hp : p < (((img.W : Int) + xOffset) * ((img.H : Int) + yOffset)).toNat) :
    (0 ≤ img.PixOffset
        (skewSrc img.W img.H xOffset yOffset
          (skewDst ((img.H : Int) + yOffset) p).1 (skewDst ((img.H : Int) + yOffset) p).2).1
        (skewSrc img.W img.H xOffset yOffset
          (skewDst ((img.H : Int) + yOffset) p).1 (skewDst ((img.H : Int) + yOffset) p).2).2 ∧
      img.PixOffset
        (skewSrc img.W img.H xOffset yOffset
          (skewDst ((img.H : Int) + yOffset) p).1 (skewDst ((img.H : Int) + yOffset) p).2).1
        (skewSrc img.W img.H xOffset yOffset
          (skewDst ((img.H : Int) + yOffset) p).1 (skewDst ((img.H : Int) + yOffset) p).2).2
        + 3 < (img.Pix.length : Int)) ∧
    (∀ t ∈ aliasedAddTargets (skewDst ((img.H : Int) + yOffset) p).1
        (skewDst ((img.H : Int) + yOffset) p).2,
      0 ≤ d.PixOffset t.1 t.2 ∧ d.PixOffset t.1 t.2 + 3 < (d.Pix.length : Int)) := by
  have hshape := Skew_shape img xOffset yOffset d h
  rw [Skew_eq_loop] at h
  obtain ⟨t, t', ht, hb⟩ := loopFrom_some_each (SameShape _) (skewBody img xOffset yOffset)
    (fun i s s' hs hb => skewBody_shape img xOffset yOffset _ s s' i hs hb)
    _ 0 _ d ⟨rfl, rfl, rfl⟩ h p (Nat.zero_le p) (by omega)
  obtain ⟨h1, h2⟩ := skewBody_some_in_range img xOffset yOffset _ t t' p ht hb
  refine ⟨h1, fun q hq => ?_⟩
  rw [PixOffset_of_shape _ d hshape, hshape.2.2]
  exact h2 q hq

/-- The amended C14 on the run of `Skew` on the 2x3 test fixture with offsets
`(-1, 3)`, at the flattened index 0. -/
theorem C14_accesses_inside_arrays_fixture :
    (0 ≤ fixture.PixOffset
        (skewSrc fixture.W fixture.H (-1) 3
          (skewDst ((fixture.H : Int) + 3) 0).1 (skewDst ((fixture.H : Int) + 3) 0).2).1
        (skewSrc fixture.W fixture.H (-1) 3
          (skewDst ((fixture.H : Int) + 3) 0).1 (skewDst ((fixture.H : Int) + 3) 0).2).2 ∧
      fixture.PixOffset
        (skewSrc fixture.W fixture.H (-1) 3
          (skewDst ((fixture.H : Int) + 3) 0).1 (skewDst ((fixture.H : Int) + 3) 0).2).1
        (skewSrc fixture.W fixture.H (-1) 3
          (skewDst ((fixture.H : Int) + 3) 0).1 (skewDst ((fixture.H : Int) + 3) 0).2).2
        + 3 < (fixture.Pix.length : Int)) ∧
    (∀ t ∈ aliasedAddTargets (skewDst ((fixture.H : Int) + 3) 0).1
        (skewDst ((fixture.H : Int) + 3) 0).2,
      0 ≤ skewFixtureResult.PixOffset t.1 t.2 ∧
      skewFixtureResult.PixOffset t.1 t.2 + 3 < (skewFixtureResult.Pix.length : Int)) :=
  C14_accesses_inside_arrays fixture (-1) 3 skewFixtureResult (by decide) 0 (by decide)

/-! ## Claim C15: the skew transform and the partition of its index range -/

theorem loopFrom_eq_runList {σ : Type} (body : Nat → σ → Option σ) :
    ∀ (n lo : Nat) (s : σ), loopFrom body lo n s = runList body (List.range' lo n) s := by
  intro n
  induction n with
  | zero => intro lo s; rfl
  | succ n ih =>
    intro lo s
    rw [List.range'_succ]
    simp only [loopFrom, runList]
    cases body lo s with
    | none => rfl
    | some t => exact ih (lo + 1) t

theorem runList_append {σ : Type} (body : Nat → σ → Option σ) (l1 l2 : List Nat) :
    ∀ s, runList body (l1 ++ l2) s = (runList body l1 s).bind (runList body l2) := by
  induction l1 with
  | nil => intro s; rfl
  | cons i l ih =>
    intro s
    simp only [List.cons_append, runList]
    cases body i s with
    | none => rfl
    | some t => exact ih t

theorem parallelOn_eq_runList {σ : Type} (body : Nat → σ → Option σ)
    (parts : List (Nat × Nat)) :
    ∀ s, parallelOn parts (fun a b d => forLoop a b body d) s
      = runList body (indicesOf parts) s := by
  induction parts with
  | nil => intro s; rfl
  | cons p ps ih =>
    intro s
    simp only [parallelOn, indicesOf]
    rw [runList_append, forLoop, loopFrom_eq_runList]
    cases runList body (List.range' p.1 (p.2 - p.1)) s with
    | none => rfl
    | some t => exact ih t

theorem count_range' (a lo n : Nat) :
    List.count a (List.range' lo n) = if lo ≤ a ∧ a < lo + n then 1 else 0 := by
  split
  · rename_i h
    exact List.count_eq_one_of_mem (List.nodup_range' lo n) (List.mem_range'_1.2 h)
  · rename_i h
    exact List.count_eq_zero_of_not_mem (fun hm => h (List.mem_range'_1.1 hm))

theorem count_indicesOf (a : Nat) (parts : List (Nat × Nat)) (hle : ∀ p ∈ parts, p.1 ≤ p.2) :
    List.count a (indicesOf parts)
      = (parts.filter (fun p => decide (p.1 ≤ a ∧ a < p.2))).length := by
  induction parts with
  | nil => rfl
  | cons p ps ih =>
    have hp := hle p (List.mem_cons_self p ps)
    simp only [indicesOf, List.count_append, count_range', List.filter_cons]
    rw [ih (fun q hq => hle q (List.mem_cons_of_mem p hq))]
    by_cases hc : p.1 ≤ a ∧ a < p.2
    · have hc' : p.1 ≤ a ∧ a < p.1 + (p.2 - p.1) := by omega
      simp only [hc, hc', and_self, if_true, decide_True, List.length_cons]
      omega
    · have hc' : ¬ (p.1 ≤ a ∧ a < p.1 + (p.2 - p.1)) := by omega
      simp only [hc, hc', if_false, decide_False, Nat.zero_add]
      rfl

/-- The indices handed out by sub-ranges that partition `[0, n)` are the
indices below `n`, in some order. -/
theorem indicesOf_perm (n : Nat) (parts : List (Nat × Nat)) (h : IsPartition n parts) :
    (indicesOf parts).Perm (List.range n) := by
  rw [List.perm_iff_count]
  intro a
  rw [count_indicesOf a parts (fun p hp => (h.1 p hp).1), List.range_eq_range', count_range']
  by_cases ha : a < n
  · rw [h.2 a ha, if_pos ⟨Nat.zero_le a, by omega⟩]
  · rw [if_neg (by omega)]
    rw [List.length_eq_zero, List.filter_eq_nil_iff]
    intro p hp
    have := (h.1 p hp).2
    simp only [decide_eq_true_eq]
    omega

theorem runList_perm {σ : Type} (Inv : σ → Prop) (body : Nat → σ → Option σ)
    (hkeep : ∀ i, Keeps Inv (body i))
    (hcomm : ∀ i j, CommOn Inv (body i) (body j)) {l1 l2 : List Nat} (h : l1.Perm l2) :
    ∀ s, Inv s → runList body l1 s = runList body l2 s := by
  induction h with
  | nil => intro s _; rfl
  | cons x _ ih =>
    intro s hs
    simp only [runList]
    cases hb : body x s with
    | none => rfl
    | some t => exact ih t (hkeep x s t hs hb)
  | swap x y l =>
    intro s hs
    simp only [runList]
    rw [← Option.bind_assoc, ← Option.bind_assoc, hcomm y x s hs]
  | trans _ _ ih1 ih2 =>
    intro s hs
    rw [ih1 s hs, ih2 s hs]

theorem runList_none_of_mem {σ : Type} (Inv : σ → Prop) (body : Nat → σ → Option σ)
    (hkeep : ∀ i, Keeps Inv (body i)) (k : Nat) (hk : ∀ s, Inv s → body k s = none) :
    ∀ (l : List Nat) (s : σ), k ∈ l → Inv s → runList body l s = none := by
  intro l
  induction l with
  | nil => intro s hm _; exact absurd hm (List.not_mem_nil k)
  | cons i l ih =>
    intro s hm hs
    simp only [runList]
    cases hb : body i s with
    | none => rfl
    | some t =>
      rw [Option.some_bind]
      rcases List.mem_cons.1 hm with rfl | hm'
      · rw [hk s hs] at hb; exact absurd hb (by simp)
      · exact ih t hm' (hkeep i s t hs hb)

theorem CommOn_symm {σ : Type} (Inv : σ → Prop) (f g : σ → Option σ) (h : CommOn Inv f g) :
    CommOn Inv g f := fun s hs => (h s hs).symm

theorem CommOn_seq {σ : Type} (Inv : σ → Prop) (f g1 g2 : σ → Option σ)
    (h1 : CommOn Inv f g1) (h2 : CommOn Inv f g2) (hk : Keeps Inv g1) :
    CommOn Inv f (fun s => (g1 s).bind g2) := by
  intro s hs
  show (f s).bind (fun t => (g1 t).bind g2) = ((g1 s).bind g2).bind f
  rw [← Option.bind_assoc, h1 s hs, Option.bind_assoc, Option.bind_assoc]
  cases hg : g1 s with
  | none => rfl
  | some u =>
    rw [Option.some_bind, Option.some_bind]
    exact h2 u (hk s u hs hg)

theorem CommOn_none {σ : Type} (Inv : σ → Prop) (f : σ → Option σ) :
    CommOn Inv f (fun _ => none) := by
  intro s _
  cases f s <;> rfl

theorem CommOn_self {σ : Type} (Inv : σ → Prop) (f : σ → Option σ) : CommOn Inv f f :=
  fun _ _ => rfl

theorem blendAt_getElem? (pix : List Nat) (o : Nat) (col : ColorNRGBA) (w : Nat)
    (h : o + 4 ≤ pix.length) (i : Nat) :
    (blendAt pix o col w)[i]? =
      if o ≤ i ∧ i < o + 4 then (blend4 (slice4 pix o) col w)[i - o]? else pix[i]? := by
  have hb := blend4_length (slice4 pix o) col w
  have ht : (pix.take o).length = o := by rw [List.length_take]; omega
  unfold blendAt
  rw [List.append_assoc]
  by_cases h1 : i < o
  · rw [if_neg (by omega), List.getElem?_append_left (by omega), List.getElem?_take, if_pos h1]
  · rw [List.getElem?_append_right (by omega), ht]
    by_cases h2 : i < o + 4
    · rw [if_pos ⟨by omega, h2⟩, List.getElem?_append_left (by omega)]
    · rw [if_neg (by omega), List.getElem?_append_right (by omega), hb, List.getElem?_drop]
      congr 1
      omega

theorem blendAt_comm (pix : List Nat) (oa ob : Nat) (ca cb : ColorNRGBA) (wa wb : Nat)
    (ha : oa + 4 ≤ pix.length) (hb : ob + 4 ≤ pix.length) (hd : oa + 4 ≤ ob ∨ ob + 4 ≤ oa) :
    blendAt (blendAt pix oa ca wa) ob cb wb = blendAt (blendAt pix ob cb wb) oa ca wa := by
  apply List.ext_getElem?
  intro i
  rw [blendAt_getElem? (blendAt pix oa ca wa) ob cb wb
      (by rw [blendAt_length _ _ _ _ ha]; exact hb),
    blendAt_getElem? (blendAt pix ob cb wb) oa ca wa
      (by rw [blendAt_length _ _ _ _ hb]; exact ha),
    blendAt_getElem? pix oa ca wa ha, blendAt_getElem? pix ob cb wb hb,
    slice4_blendAt_other pix oa ob ca wa ha (by omega),
    slice4_blendAt_other pix ob oa cb wb hb (by omega)]
  by_cases h1 : oa ≤ i ∧ i < oa + 4
  · rw [if_pos h1, if_neg (by omega), if_pos h1]
  · rw [if_neg h1, if_neg h1]

theorem aliasedAddPixel_after (s : ImageNRGBA) (pix : List Nat) (hlen : pix.length = s.Pix.length)
    (x y px py : Int) (col : ColorNRGBA) :
    aliasedAddPixel { s with Pix := pix } x y px py col =
      if 0 ≤ s.PixOffset px py ∧ s.PixOffset px py + 3 < (s.Pix.length : Int) then
        some { s with Pix := (blendAt pix (s.PixOffset px py).toNat col
          (opacityOf x y px py col).toNat) }
      else none := by
  rw [aliasedAddPixel_eq]
  show (if 0 ≤ s.PixOffset px py ∧ s.PixOffset px py + 3 < (pix.length : Int) then _ else _) = _
  rw [hlen]
  rfl

theorem pixelOp_keeps (d0 : ImageNRGBA) (x y : Int) (col : ColorNRGBA) (t : Int × Int) :
    Keeps (SameShape d0) (pixelOp x y col t) :=
  fun s s' hs h => aliasedAddPixel_shape d0 s s' x y t.1 t.2 col hs h

/-- Two calls of `aliasedAddPixel` whose targets are four bytes apart or more
give the same outcome in either order. -/
theorem pixelOp_comm (d0 : ImageNRGBA) (x y x' y' : Int) (col col' : ColorNRGBA)
    (t t' : Int × Int)
    (hd : d0.PixOffset t.1 t.2 + 4 ≤ d0.PixOffset t'.1 t'.2 ∨
      d0.PixOffset t'.1 t'.2 + 4 ≤ d0.PixOffset t.1 t.2) :
    CommOn (SameShape d0) (pixelOp x y col t) (pixelOp x' y' col' t') := by
  intro s hs
  have e1 := PixOffset_of_shape d0 s hs t.1 t.2
  have e2 := PixOffset_of_shape d0 s hs t'.1 t'.2
  rw [← e1, ← e2] at hd
  unfold pixelOp
  rw [aliasedAddPixel_eq s x y, aliasedAddPixel_eq s x' y']
  by_cases ha : 0 ≤ s.PixOffset t.1 t.2 ∧ s.PixOffset t.1 t.2 + 3 < (s.Pix.length : Int)
  · by_cases hb : 0 ≤ s.PixOffset t'.1 t'.2 ∧ s.PixOffset t'.1 t'.2 + 3 < (s.Pix.length : Int)
    · rw [if_pos ha, if_pos hb, Option.some_bind, Option.some_bind,
        aliasedAddPixel_after s _ (blendAt_length _ _ _ _ (by omega)),
        aliasedAddPixel_after s _ (blendAt_length _ _ _ _ (by omega)), if_pos ha, if_pos hb,
        blendAt_comm s.Pix _ _ col col' _ _ (by omega) (by omega) (by omega)]
    · rw [if_pos ha, if_neg hb, Option.some_bind, Option.none_bind,
        aliasedAddPixel_after s _ (blendAt_length _ _ _ _ (by omega)), if_neg hb]
  · by_cases hb : 0 ≤ s.PixOffset t'.1 t'.2 ∧ s.PixOffset t'.1 t'.2 + 3 < (s.Pix.length : Int)
    · rw [if_neg ha, if_pos hb, Option.some_bind, Option.none_bind,
        aliasedAddPixel_after s _ (blendAt_length _ _ _ _ (by omega)), if_neg ha]
    · rw [if_neg ha, if_neg hb]
      rfl

theorem aliasedAdd_eq_seq (x y : Int) (col : ColorNRGBA) :
    (fun s => aliasedAdd s x y col) = fun s =>
      (pixelOp x y col (x, y) s).bind fun s =>
      (pixelOp x y col (x, y + 1) s).bind fun s =>
      (pixelOp x y col (x + 1, y) s).bind (pixelOp x y col (x + 1, y + 1)) := rfl

theorem aliasedAdd_keeps (d0 : ImageNRGBA) (x y : Int) (col : ColorNRGBA) :
    Keeps (SameShape d0) (fun s => aliasedAdd s x y col) :=
  fun s s' hs h => aliasedAdd_shape d0 s s' x y col hs h

theorem CommOn_aliasedAdd_right (d0 : ImageNRGBA) (f : ImageNRGBA → Option ImageNRGBA)
    (x y : Int) (col : ColorNRGBA)
    (h : ∀ t ∈ aliasedAddTargets x y, CommOn (SameShape d0) f (pixelOp x y col t)) :
    CommOn (SameShape d0) f (fun s => aliasedAdd s x y col) := by
  rw [aliasedAdd_eq_seq]
  have m : ∀ t, t ∈ aliasedAddTargets x y ↔
      t = (x, y) ∨ t = (x, y + 1) ∨ t = (x + 1, y) ∨ t = (x + 1, y + 1) := by
    intro t
    simp [aliasedAddTargets]
  exact CommOn_seq _ f _ _ (h _ ((m _).2 (Or.inl rfl)))
    (CommOn_seq _ f _ _ (h _ ((m _).2 (Or.inr (Or.inl rfl))))
      (CommOn_seq _ f _ _ (h _ ((m _).2 (Or.inr (Or.inr (Or.inl rfl)))))
        (h _ ((m _).2 (Or.inr (Or.inr (Or.inr rfl)))))
        (pixelOp_keeps d0 x y col _))
      (pixelOp_keeps d0 x y col _))
    (pixelOp_keeps d0 x y col _)

theorem aliasedAdd_comm (d0 : ImageNRGBA) (x y x' y' : Int) (col col' : ColorNRGBA)
    (hd : ∀ t ∈ aliasedAddTargets x y, ∀ t' ∈ aliasedAddTargets x' y',
      d0.PixOffset t.1 t.2 + 4 ≤ d0.PixOffset t'.1 t'.2 ∨
      d0.PixOffset t'.1 t'.2 + 4 ≤ d0.PixOffset t.1 t.2) :
    CommOn (SameShape d0) (fun s => aliasedAdd s x y col) (fun s => aliasedAdd s x' y' col') := by
  apply CommOn_aliasedAdd_right
  intro t' ht'
  apply CommOn_symm
  apply CommOn_aliasedAdd_right
  intro t ht
  exact pixelOp_comm d0 x' y' x y col' col t' t ((hd t ht t' ht').symm)

theorem skewBody_keeps (src : NRGBA) (xOffset yOffset : Int) (d0 : ImageNRGBA) (p : Nat) :
    Keeps (SameShape d0) (skewBody src xOffset yOffset p) :=
  fun s s' hs h => skewBody_shape src xOffset yOffset d0 s s' p hs h

/-- The bodies of two flattened indices give the same outcome in either order
when they decode the same destination coordinate, or when all their targets
are four bytes apart or more. -/
theorem skewBody_comm (src : NRGBA) (xOffset yOffset : Int) (d0 : ImageNRGBA) (p q : Nat)
    (hd : skewDst ((src.H : Int) + yOffset) p = skewDst ((src.H : Int) + yOffset) q ∨
      ∀ t ∈ aliasedAddTargets (skewDst ((src.H : Int) + yOffset) p).1
          (skewDst ((src.H : Int) + yOffset) p).2,
        ∀ t' ∈ aliasedAddTargets (skewDst ((src.H : Int) + yOffset) q).1
            (skewDst ((src.H : Int) + yOffset) q).2,
          d0.PixOffset t.1 t.2 + 4 ≤ d0.PixOffset t'.1 t'.2 ∨
          d0.PixOffset t'.1 t'.2 + 4 ≤ d0.PixOffset t.1 t.2) :
    CommOn (SameShape d0) (skewBody src xOffset yOffset p) (skewBody src xOffset yOffset q) := by
  rcases hd with he | hd
  · have : skewBody src xOffset yOffset p = skewBody src xOffset yOffset q := by
      funext d
      unfold skewBody
      rw [he]
    rw [this]
    exact CommOn_self _ _
  · have hp : skewBody src xOffset yOffset p = fun d =>
        (readColor src.Pix (src.PixOffset
          (skewSrc src.W src.H xOffset yOffset
            (skewDst ((src.H : Int) + yOffset) p).1
            (skewDst ((src.H : Int) + yOffset) p).2).1
          (skewSrc src.W src.H xOffset yOffset
            (skewDst ((src.H : Int) + yOffset) p).1
            (skewDst ((src.H : Int) + yOffset) p).2).2)).bind fun col =>
          aliasedAdd d (skewDst ((src.H : Int) + yOffset) p).1
            (skewDst ((src.H : Int) + yOffset) p).2 col := rfl
    have hq : skewBody src xOffset yOffset q = fun d =>
        (readColor src.Pix (src.PixOffset
          (skewSrc src.W src.H xOffset yOffset
            (skewDst ((src.H : Int) + yOffset) q).1
            (skewDst ((src.H : Int) + yOffset) q).2).1
          (skewSrc src.W src.H xOffset yOffset
            (skewDst ((src.H : Int) + yOffset) q).1
            (skewDst ((src.H : Int) + yOffset) q).2).2)).bind fun col =>
          aliasedAdd d (skewDst ((src.H : Int) + yOffset) q).1
            (skewDst ((src.H : Int) + yOffset) q).2 col := rfl
    rw [hp, hq]
    cases readColor src.Pix (src.PixOffset
          (skewSrc src.W src.H xOffset yOffset
            (skewDst ((src.H : Int) + yOffset) p).1
            (skewDst ((src.H : Int) + yOffset) p).2).1
          (skewSrc src.W src.H xOffset yOffset
            (skewDst ((src.H : Int) + yOffset) p).1
            (skewDst ((src.H : Int) + yOffset) p).2).2) with
    | none => exact CommOn_symm _ _ _ (CommOn_none _ _)
    | some cp =>
      cases readColor src.Pix (src.PixOffset
          (skewSrc src.W src.H xOffset yOffset
            (skewDst ((src.H : Int) + yOffset) q).1
            (skewDst ((src.H : Int) + yOffset) q).2).1
          (skewSrc src.W src.H xOffset yOffset
            (skewDst ((src.H : Int) + yOffset) q).1
            (skewDst ((src.H : Int) + yOffset) q).2).2) with
      | none => exact CommOn_none _ _
      | some cq => exact aliasedAdd_comm d0 _ _ _ _ cp cq hd

theorem mem_aliasedAddTargets (x y : Int) (t : Int × Int) (h : t ∈ aliasedAddTargets x y) :
    ∃ i j : Int, 0 ≤ i ∧ i ≤ 1 ∧ 0 ≤ j ∧ j ≤ 1 ∧ t = (x + i, y + j) := by
  simp only [aliasedAddTargets, List.mem_cons, List.mem_singleton, List.not_mem_nil,
    or_false] at h
  rcases h with rfl | rfl | rfl | rfl
  · exact ⟨0, 0, by omega, by omega, by omega, by omega, by simp⟩
  · exact ⟨0, 1, by omega, by omega, by omega, by omega, by simp⟩
  · exact ⟨1, 0, by omega, by omega, by omega, by omega, by simp⟩
  · exact ⟨1, 1, by omega, by omega, by omega, by omega, by simp⟩

theorem skew_offsets_apart (w h gp gq i j i' j' : Int) (hW : 1 ≤ w) (hh : 2 ≤ h)
    (hlt : gp < gq) (hi : i ≤ 1) (hj : j ≤ 1) (hi' : 0 ≤ i') (hj' : 0 ≤ j') :
    (gp + j - 0) * (4 * w) + (h * gp + i - 0) * 4 + 4
      ≤ (gq + j' - 0) * (4 * w) + (h * gq + i' - 0) * 4 := by
  have h1 : 0 ≤ (gq - gp - 1) * w := mul_nonneg (by omega) (by omega)
  have h2 : 0 ≤ (gq - gp - 1) * h := mul_nonneg (by omega) (by omega)
  have h3 : 0 ≤ (j' - j + 1) * w := mul_nonneg (by omega) (by omega)
  nlinarith

/-- With a destination at least one pixel wide and two pixels high, the bodies
of any two flattened indices give the same outcome in either order. -/
theorem skewBody_comm_pos (src : NRGBA) (xOffset yOffset : Int)
    (hW : 1 ≤ (src.W : Int) + xOffset) (hH : 2 ≤ (src.H : Int) + yOffset) (p q : Nat) :
    CommOn (SameShape (NewNRGBAIn (Rect 0 0 ((src.W : Int) + xOffset)
        ((src.H : Int) + yOffset))))
      (skewBody src xOffset yOffset p) (skewBody src xOffset yOffset q) := by
  apply skewBody_comm
  obtain ⟨hn, hN⟩ : ∃ hn : Nat, (hn : Int) = (src.H : Int) + yOffset :=
    ⟨((src.H : Int) + yOffset).toNat, Int.toNat_of_nonneg (by omega)⟩
  rw [NewNRGBAIn_nonneg _ _ (by omega) (by omega), ← hN, skewDst_pos, skewDst_pos]
  by_cases hg : p / hn = q / hn
  · left; rw [hg]
  · right
    intro t ht t' ht'
    obtain ⟨i, j, hi0, hi1, hj0, hj1, rfl⟩ := mem_aliasedAddTargets _ _ t ht
    obtain ⟨i', j', hi0', hi1', hj0', hj1', rfl⟩ := mem_aliasedAddTargets _ _ t' ht'
    unfold ImageNRGBA.PixOffset
    simp only [Nat.cast_mul]
    rcases Nat.lt_or_gt_of_ne hg with hlt | hlt
    · left
      exact skew_offsets_apart _ _ _ _ i j i' j' hW (by omega) (by exact_mod_cast hlt)
        hi1 hj1 hi0' hj0'
    · right
      exact skew_offsets_apart _ _ _ _ i' j' i j hW (by omega) (by exact_mod_cast hlt)
        hi1' hj1' hi0 hj0

/-- With a destination of positive size and `dstH ≤ dstW*dstW + 1` the body of
one flattened index panics on every state of the destination. -/
theorem skew_fail_index_small (src : NRGBA) (xOffset yOffset : Int)
    (hW : 1 ≤ (src.W : Int) + xOffset) (hH : 1 ≤ (src.H : Int) + yOffset)
    (hle : (src.H : Int) + yOffset ≤ ((src.W : Int) + xOffset) * ((src.W : Int) + xOffset) + 1) :
    ∃ k, k < (((src.W : Int) + xOffset) * ((src.H : Int) + yOffset)).toNat ∧
      ∀ s, SameShape (NewNRGBAIn (Rect 0 0 ((src.W : Int) + xOffset)
          ((src.H : Int) + yOffset))) s →
        skewBody src xOffset yOffset k s = none := by
  obtain ⟨h1, h2, h3, h4⟩ := skew_last_target _ _ hW hH hle
  refine ⟨(((src.W : Int) + xOffset - 1) * ((src.H : Int) + yOffset)).toNat, ?_,
    fun s hs => skewBody_none_of_target src xOffset yOffset _ s _ hs
      (((src.W : Int) + xOffset - 1) * ((src.H : Int) + yOffset) + 1,
        (src.W : Int) + xOffset - 1 + 1) ?_ ?_⟩
  · apply (Int.toNat_lt_toNat _).2
    · nlinarith
    · nlinarith
  · rw [h1]
    simp [aliasedAddTargets]
  · simp only []
    rw [h2, h3]
    omega

/-- With a destination of negative width and negative height the body of the
flattened index 0 panics on every state of the destination. -/
theorem skew_fail_index_neg (src : NRGBA) (xOffset yOffset : Int)
    (hW : (src.W : Int) + xOffset ≤ -1) (hH : (src.H : Int) + yOffset ≤ -1) :
    ∃ k, k < (((src.W : Int) + xOffset) * ((src.H : Int) + yOffset)).toNat ∧
      ∀ s, SameShape (NewNRGBAIn (Rect 0 0 ((src.W : Int) + xOffset)
          ((src.H : Int) + yOffset))) s →
        skewBody src xOffset yOffset k s = none := by
  have hprod : 1 ≤ ((src.W : Int) + xOffset) * ((src.H : Int) + yOffset) := by nlinarith
  have hd : skewDst ((src.H : Int) + yOffset) 0 = (0, 0) := by
    unfold skewDst
    simp
  refine ⟨0, by omega, fun s hs => skewBody_none_of_target src xOffset yOffset _ s _ hs
    (0, 0) ?_ ?_⟩
  · rw [hd]
    simp [aliasedAddTargets]
  · unfold NewNRGBAIn Rect ImageNRGBA.PixOffset
    simp only [gt_iff_lt, if_pos (show (src.W : Int) + xOffset < 0 by omega),
      if_pos (show (src.H : Int) + yOffset < 0 by omega), List.length_replicate]
    have hn : 0 ≤ 4 * (0 - ((src.W : Int) + xOffset)) * (0 - ((src.H : Int) + yOffset)) := by
      nlinarith
    rw [Int.toNat_of_nonneg hn]
    intro hcon
    nlinarith [hcon.2]

theorem SkewOn_eq_Skew (img : NRGBA) (xOffset yOffset : Int) (parts : List (Nat × Nat))
    (hparts : IsPartition (((img.W : Int) + xOffset) * ((img.H : Int) + yOffset)).toNat parts) :
    SkewOn parts img xOffset yOffset = Skew img xOffset yOffset := by
  have perm := indicesOf_perm _ parts hparts
  rw [SkewOn_eq_loop, Skew_eq_loop, parallelOn_eq_runList, forLoop, loopFrom_eq_runList,
    Nat.sub_zero, ← List.range_eq_range']
  have keeps := fun i => skewBody_keeps img xOffset yOffset
    (NewNRGBAIn (Rect 0 0 ((img.W : Int) + xOffset) ((img.H : Int) + yOffset))) i
  have fails : (∃ k, k < (((img.W : Int) + xOffset) * ((img.H : Int) + yOffset)).toNat ∧
      ∀ s, SameShape (NewNRGBAIn (Rect 0 0 ((img.W : Int) + xOffset)
          ((img.H : Int) + yOffset))) s → skewBody img xOffset yOffset k s = none) →
      runList (skewBody img xOffset yOffset) (indicesOf parts)
          (NewNRGBAIn (Rect 0 0 ((img.W : Int) + xOffset) ((img.H : Int) + yOffset)))
        = runList (skewBody img xOffset yOffset)
          (List.range (((img.W : Int) + xOffset) * ((img.H : Int) + yOffset)).toNat)
          (NewNRGBAIn (Rect 0 0 ((img.W : Int) + xOffset) ((img.H : Int) + yOffset))) := by
    rintro ⟨k, hk, hnone⟩
    have hm : k ∈ List.range (((img.W : Int) + xOffset) * ((img.H : Int) + yOffset)).toNat :=
      List.mem_range.2 hk
    rw [runList_none_of_mem _ _ keeps k hnone _ _ (perm.mem_iff.2 hm) ⟨rfl, rfl, rfl⟩,
      runList_none_of_mem _ _ keeps k hnone _ _ hm ⟨rfl, rfl, rfl⟩]
  by_cases hpos : 1 ≤ (img.W : Int) + xOffset ∧ 2 ≤ (img.H : Int) + yOffset
  · exact runList_perm _ _ keeps
      (fun i j => skewBody_comm_pos img xOffset yOffset hpos.1 hpos.2 i j) perm _
      ⟨rfl, rfl, rfl⟩
  · by_cases hone : 1 ≤ (img.W : Int) + xOffset ∧ (img.H : Int) + yOffset = 1
    · exact fails (skew_fail_index_small img xOffset yOffset hone.1 (by omega)
        (by nlinarith [hone.1, hone.2]))
    · by_cases hneg : (img.W : Int) + xOffset ≤ -1 ∧ (img.H : Int) + yOffset ≤ -1
      · exact fails (skew_fail_index_neg img xOffset yOffset hneg.1 hneg.2)
      · have hz : (((img.W : Int) + xOffset) * ((img.H : Int) + yOffset)).toNat = 0 := by
          rw [Int.toNat_eq_zero]
          rcases lt_trichotomy ((img.W : Int) + xOffset) 0 with h1 | h1 | h1
          · have h2 : 0 ≤ (img.H : Int) + yOffset := by omega
            exact mul_nonpos_of_nonpos_of_nonneg (le_of_lt h1) h2
          · rw [h1, zero_mul]
          · have h2 : (img.H : Int) + yOffset ≤ 0 := by omega
            exact mul_nonpos_of_nonneg_of_nonpos (le_of_lt h1) h2
        rw [hz] at perm ⊢
        rw [List.range_zero] at perm ⊢
        rw [List.perm_nil.1 perm]

/-! ### Claim C15 -/

/-- C15. For every source buffer and every pair of offsets, the outcome of
`Skew`, the destination buffer or the failure on an index out of range, is
the same for every list of sub-ranges that are disjoint and together cover the
flattened index range `[0, dstW*dstH)`, processed one after another in any
order; the single sub-range of one worker is one of them. -/
theorem C15_skew_partition_independent (img : NRGBA) (xOffset yOffset : Int)
    (parts : List (Nat × Nat))
    (hparts : IsPartition (((img.W : Int) + xOffset) * ((img.H : Int) + yOffset)).toNat parts) :
    SkewOn parts img xOffset yOffset = Skew img xOffset yOffset ∧
    SkewOn [(0, (((img.W : Int) + xOffset) * ((img.H : Int) + yOffset)).toNat)] img
      xOffset yOffset = Skew img xOffset yOffset :=
  ⟨SkewOn_eq_Skew img xOffset yOffset parts hparts,
    SkewOn_eq_Skew img xOffset yOffset _ (IsPartition_single _)⟩

/-- The run of `Skew` on the image two pixels wide and six high completes, and
four sub-ranges processed out of order give its result, by C15. -/
theorem C15_skew_partition_tall :
    (Skew skewTall 0 0).isSome = true ∧
    IsPartition (((skewTall.W : Int) + 0) * ((skewTall.H : Int) + 0)).toNat
      [(11, 12), (3, 7), (0, 3), (7, 11)] ∧
    SkewOn [(11, 12), (3, 7), (0, 3), (7, 11)] skewTall 0 0 = Skew skewTall 0 0 ∧
    SkewOn [(0, (((skewTall.W : Int) + 0) * ((skewTall.H : Int) + 0)).toNat)] skewTall 0 0
      = Skew skewTall 0 0 :=
  ⟨by decide, by unfold IsPartition; decide,
    C15_skew_partition_independent skewTall 0 0 [(11, 12), (3, 7), (0, 3), (7, 11)]
      (by unfold IsPartition; decide)⟩

end Imaging
